import Mathlib

/-!
Verification development for the image-discovery crawl engine of
`src/product/scripts/image_batch_downloader.py`.

The Python source is shallowly embedded below.  Strings are Lean `String`s
(lists of Unicode scalar values); Python string primitives used by the source
(`lower`, `strip`, `split`, `join`, `replace`, substring tests, `urllib.parse`
functions) are modelled character by character.  ASCII-scoped constraints that
the embedding relies on are recorded in doc comments of the corresponding
definitions.  External capabilities of the program (HTTP transport via
`requests`, HTML parsing via BeautifulSoup, `hashlib.sha256`, the `mimetypes`
table) are passed in as explicit parameters, mirroring the spec's treatment of
them as black-box collaborators.
-/

set_option maxRecDepth 40000

namespace VV

/-! ## Python string primitives -/

/-- Python `str.lower()` restricted to ASCII: maps `A`-`Z` to `a`-`z` and
leaves every other character unchanged.  All keyword tables of the source are
ASCII, and the claims are settled on ASCII inputs, where this agrees with
Python's Unicode-aware `lower`. -/
def pyLower (s : String) : String :=
  String.mk (s.data.map Char.toLower)

/-- Python whitespace for `str.strip()` / `str.split()` (ASCII part). -/
def isPySpace (c : Char) : Bool :=
  c == ' ' || c == '\t' || c == '\n' || c == '\x0d' || c == '\x0b' || c == '\x0c'

/-- Python `str.strip()` with no argument. -/
def pyStrip (s : String) : String :=
  String.mk (((s.data.dropWhile (fun c => isPySpace c)).reverse.dropWhile
    (fun c => isPySpace c)).reverse)

/-- Python `str.strip(chars)`: remove the given characters from both ends. -/
def pyStripChars (s : String) (cs : List Char) : String :=
  String.mk (((s.data.dropWhile (fun c => cs.contains c)).reverse.dropWhile
    (fun c => cs.contains c)).reverse)

/-- Does the first list occur at the head of the second one? -/
def leadsWith : List Char → List Char → Bool
  | [], _ => true
  | _ :: _, [] => false
  | a :: ps, b :: ls => a == b && leadsWith ps ls

/-- Python `needle in hay` for strings. -/
def hasSubList (needle hay : List Char) : Bool :=
  (List.range (hay.length + 1)).any (fun i => leadsWith needle (hay.drop i))

/-- Python `needle in hay` for strings. -/
def strHas (hay needle : String) : Bool :=
  hasSubList needle.data hay.data

/-- Split a character list at every character satisfying the predicate,
keeping empty pieces, as Python `str.split(sep)` does for a one-character
separator. -/
def splitPredL (p : Char → Bool) : List Char → List (List Char)
  | [] => [[]]
  | c :: cs =>
    if p c then [] :: splitPredL p cs
    else
      match splitPredL p cs with
      | [] => [[c]]
      | piece :: rest => (c :: piece) :: rest

/-- Python `str.split(sep)` for a one-character separator. -/
def splitCharStr (c : Char) (s : String) : List String :=
  (splitPredL (fun d => d == c) s.data).map String.mk

/-- Python `str.join`. -/
def joinWith (sep : String) : List String → String
  | [] => ""
  | [x] => x
  | x :: xs => x ++ sep ++ joinWith sep xs

/-- Replacement engine for Python `str.replace`: scan left to right, replacing
non-overlapping occurrences.  The fuel argument is the length of the scanned
list; every recursive call consumes at least one character, so the fuel never
runs out when initialised that way. -/
def replaceGo (needle repl : List Char) : Nat → List Char → List Char
  | 0, l => l
  | _ + 1, [] => []
  | f + 1, c :: cs =>
    if needle ≠ [] && leadsWith needle (c :: cs) then
      repl ++ replaceGo needle repl f ((c :: cs).drop needle.length)
    else c :: replaceGo needle repl f cs

/-- Python `str.replace(pat, rep)` (for a non-empty pattern, the only use in
the source). -/
def strReplace (s pat rep : String) : String :=
  String.mk (replaceGo pat.data rep.data s.data.length s.data)

/-- Python `str.split()` with no argument: split on whitespace runs, dropping
empty pieces. -/
def pySplitWS (s : String) : List String :=
  ((splitPredL (fun c => isPySpace c) s.data).map String.mk).filter (fun p => p ≠ "")

/-- Python `str.split(sep, 1)`: split at the first occurrence of a single
character, returning the part before it and, when found, the part after. -/
def splitFirst (s : String) (c : Char) : String × Option String :=
  go [] s.data
where
  go (acc : List Char) : List Char → String × Option String
    | [] => (String.mk acc.reverse, none)
    | d :: rest =>
      if d == c then (String.mk acc.reverse, some (String.mk rest))
      else go (d :: acc) rest

/-- Index of the first occurrence of a character, as Python `str.find`. -/
def findChar (s : String) (c : Char) : Option Nat :=
  go 0 s.data
where
  go (i : Nat) : List Char → Option Nat
    | [] => none
    | d :: rest => if d == c then some i else go (i + 1) rest

/-- Index of the last occurrence of a character, as Python `str.rfind`. -/
def rfindChar (s : String) (c : Char) : Option Nat :=
  go 0 none s.data
where
  go (i : Nat) (best : Option Nat) : List Char → Option Nat
    | [] => best
    | d :: rest => go (i + 1) (if d == c then some i else best) rest

/-- Keep the first occurrence of each element, dropping later duplicates.
This is the `seen`-set-plus-append loop idiom used throughout the source. -/
def dedupFirst {α : Type} [DecidableEq α] : List α → List α :=
  go []
where
  go (seen : List α) : List α → List α
    | [] => []
    | x :: xs => if x ∈ seen then go seen xs else x :: go (x :: seen) xs

/-! ## `urllib.parse` model

The six-component named tuple of `urlparse` and the reassembly functions
`urlunparse` / `urlunsplit`, the reference resolution `urljoin`, and the query
helpers `parse_qsl` / `unquote`, modelled from CPython `urllib/parse.py`.
IPv6 bracket validation (which raises `ValueError`) is not modelled; the
claims are settled on bracket-free URLs. -/

structure URLParts where
  scheme : String
  netloc : String
  path : String
  params : String
  query : String
  fragment : String
deriving Repr, DecidableEq

/-- Characters CPython allows inside a URL scheme. -/
def isSchemeChar (c : Char) : Bool :=
  (c ≥ 'a' && c ≤ 'z') || (c ≥ 'A' && c ≤ 'Z') || (c ≥ '0' && c ≤ '9') ||
    c == '+' || c == '-' || c == '.'

/-- CPython removes tab, CR and LF anywhere in the URL and strips leading and
trailing C0-control-or-space characters before splitting. -/
def urlSanitize (s : String) : String :=
  let cleaned := s.data.filter (fun c => ¬ (c == '\t' || c == '\x0d' || c == '\n'))
  String.mk ((cleaned.dropWhile (fun c => c ≤ ' ')).reverse.dropWhile
    (fun c => c ≤ ' ')).reverse

/-- CPython `_splitnetloc`: the netloc runs from after `//` up to the first
`/`, `?` or `#`. -/
def splitNetloc (rest : List Char) : List Char × List Char :=
  go [] rest
where
  go (acc : List Char) : List Char → List Char × List Char
    | [] => (acc.reverse, [])
    | c :: cs =>
      if c == '/' || c == '?' || c == '#' then (acc.reverse, c :: cs)
      else go (c :: acc) cs

/-- Scheme detection of CPython `urlsplit`: a leading ASCII letter followed by
scheme characters up to a colon. -/
def detectScheme (url : String) : Option (String × String) :=
  match findChar url ':' with
  | none => none
  | some i =>
    if i > 0 then
      let before := url.data.take i
      match before with
      | [] => none
      | c0 :: _ =>
        if (c0 ≥ 'a' && c0 ≤ 'z') || (c0 ≥ 'A' && c0 ≤ 'Z') then
          if before.all (fun c => isSchemeChar c) then
            some (pyLower (String.mk before), String.mk (url.data.drop (i + 1)))
          else none
        else none
    else none

/-- CPython `urlsplit` (fragment and query splitting included). -/
def urlsplit (url : String) (defaultScheme : String := "") :
    String × String × String × String × String :=
  let url := urlSanitize url
  let (scheme, url) :=
    match detectScheme url with
    | some (sc, rest) => (sc, rest)
    | none => (defaultScheme, url)
  let (netloc, url) :=
    if leadsWith ['/', '/'] url.data then
      let (n, r) := splitNetloc (url.data.drop 2)
      (String.mk n, String.mk r)
    else ("", url)
  let (url, fragment) :=
    match splitFirst url '#' with
    | (before, some after) => (before, after)
    | (before, none) => (before, "")
  let (url, query) :=
    match splitFirst url '?' with
    | (before, some after) => (before, after)
    | (before, none) => (before, "")
  (scheme, netloc, url, query, fragment)

/-- Schemes for which CPython `urlparse` splits path parameters. -/
def usesParams : List String :=
  ["", "ftp", "hdl", "prospero", "http", "imap", "https", "shttp", "rtsp",
   "rtsps", "rtspu", "sip", "sips", "mms", "sftp", "tel"]

/-- Schemes taking part in relative-reference resolution in `urljoin`. -/
def usesRelative : List String :=
  ["", "ftp", "http", "gopher", "nntp", "imap", "wais", "file", "https",
   "shttp", "mms", "prospero", "rtsp", "rtspu", "rtsps", "sftp", "svn",
   "svn+ssh", "ws", "wss"]

/-- Schemes with a network location component in `urljoin`. -/
def usesNetloc : List String :=
  ["", "ftp", "http", "gopher", "nntp", "telnet", "imap", "wais", "file",
   "mms", "https", "shttp", "snews", "prospero", "rtsp", "rtspu", "rtsps",
   "rsync", "svn", "svn+ssh", "sftp", "nfs", "git", "git+ssh", "ws", "wss",
   "itms-services"]

/-- CPython `_splitparams`: parameters after `;` in the last path segment. -/
def splitParams (url : String) : String × String :=
  let i :=
    match rfindChar url '/' with
    | some slash =>
      match findChar (String.mk (url.data.drop slash)) ';' with
      | some j => some (slash + j)
      | none => none
    | none => findChar url ';'
  match i with
  | none => (url, "")
  | some i => (String.mk (url.data.take i), String.mk (url.data.drop (i + 1)))

/-- CPython `urlparse`. -/
def urlparse (url : String) (defaultScheme : String := "") : URLParts :=
  let (scheme, netloc, rest, query, fragment) := urlsplit url defaultScheme
  let (path, params) :=
    if usesParams.contains scheme && strHas rest ";" then splitParams rest
    else (rest, "")
  ⟨scheme, netloc, path, params, query, fragment⟩

/-- CPython `urlunsplit`. -/
def urlunsplit (scheme netloc url query fragment : String) : String :=
  let url :=
    if netloc ≠ "" || (url ≠ "" && leadsWith ['/', '/'] url.data) then
      let url := if url ≠ "" && ¬ leadsWith ['/'] url.data then "/" ++ url else url
      "//" ++ netloc ++ url
    else url
  let url := if scheme ≠ "" then scheme ++ ":" ++ url else url
  let url := if query ≠ "" then url ++ "?" ++ query else url
  if fragment ≠ "" then url ++ "#" ++ fragment else url

/-- CPython `urlunparse`. -/
def urlunparse (p : URLParts) : String :=
  let url := if p.params ≠ "" then p.path ++ ";" ++ p.params else p.path
  urlunsplit p.scheme p.netloc url p.query p.fragment

/-- Remove-dot-segments loop of CPython `urljoin`. -/
def resolveSegments (segments : List String) : List String :=
  go [] segments
where
  go (acc : List String) : List String → List String
    | [] => acc.reverse
    | seg :: rest =>
      if seg = ".." then go acc.tail rest
      else if seg = "." then go acc rest
      else go (seg :: acc) rest

/-- CPython `urljoin`. -/
def urljoin (base url : String) : String :=
  if base = "" then url
  else if url = "" then base
  else
    let b := urlparse base ""
    let u := urlparse url b.scheme
    if u.scheme ≠ b.scheme || ¬ usesRelative.contains u.scheme then url
    else
      let (netloc, earlyNetloc) :=
        if usesNetloc.contains u.scheme then
          if u.netloc ≠ "" then (u.netloc, true) else (b.netloc, false)
        else (u.netloc, false)
      if earlyNetloc then
        urlunparse ⟨u.scheme, u.netloc, u.path, u.params, u.query, u.fragment⟩
      else if u.path = "" && u.params = "" then
        let query := if u.query = "" then b.query else u.query
        urlunparse ⟨u.scheme, netloc, b.path, b.params, query, u.fragment⟩
      else
        let baseParts := splitCharStr '/' b.path
        let baseParts :=
          if baseParts.getLast? ≠ some "" then baseParts.dropLast else baseParts
        let segments :=
          if leadsWith ['/'] u.path.data then splitCharStr '/' u.path
          else
            let segs := baseParts ++ splitCharStr '/' u.path
            match segs with
            | [] => []
            | [s] => [s]
            | s0 :: more =>
              s0 :: ((more.dropLast.filter (fun s => s ≠ "")) ++
                (match more.getLast? with | some l => [l] | none => []))
        let resolved := resolveSegments segments
        let resolved :=
          if segments.getLast? = some ".." || segments.getLast? = some "." then
            resolved ++ [""]
          else resolved
        let path :=
          let j := joinWith "/" resolved
          if j = "" then "/" else j
        urlunparse ⟨u.scheme, netloc, path, u.params, u.query, u.fragment⟩

/-- Hexadecimal digit value for percent-decoding. -/
def hexVal (c : Char) : Option Nat :=
  if c ≥ '0' && c ≤ '9' then some (c.toNat - '0'.toNat)
  else if c ≥ 'a' && c ≤ 'f' then some (c.toNat - 'a'.toNat + 10)
  else if c ≥ 'A' && c ≤ 'F' then some (c.toNat - 'A'.toNat + 10)
  else none

/-- CPython `unquote`, decoding each valid `%XY` escape to the character with
code `XY` and leaving invalid escapes untouched.  Exact for ASCII escapes;
multi-byte UTF-8 escape sequences (bytes at or above `0x80`) are decoded per
byte instead of per sequence, which no claim exercises. -/
def unquote (s : String) : String :=
  match s.data with
  | [] => ""
  | _ =>
    let bits := splitCharStr '%' s
    match bits with
    | [] => s
    | first :: rest =>
      first ++ joinWith "" (rest.map (fun item =>
        match item.data with
        | a :: b :: tl =>
          match hexVal a, hexVal b with
          | some ha, some hb => String.mk (Char.ofNat (ha * 16 + hb) :: tl)
          | _, _ => "%" ++ item
        | _ => "%" ++ item))

/-- CPython `parse_qsl` with `keep_blank_values=True` and separator `&`. -/
def parse_qsl (qs : String) : List (String × String) :=
  (splitCharStr '&' qs).filterMap (fun pair =>
    if pair = "" then none
    else
      let (name, value) :=
        match splitFirst pair '=' with
        | (n, some v) => (n, v)
        | (n, none) => (n, "")
      some (unquote (strReplace name "+" " "), unquote (strReplace value "+" " ")))


/-! ## Python numeric conversions

`int(str)` and `int(float(str) * 1000)` as used by `parse_srcset_best`.
The float path models CPython exactly for finite doubles: the decimal literal
is parsed to an exact rational, rounded to the nearest IEEE binary64 value
(ties to even), multiplied by 1000, rounded again, and truncated toward zero.
Descriptors denoting NaN are unparsable to `int` (the source catches the
`ValueError`, scoring 1); descriptors denoting out-of-range magnitudes make
the original program raise an uncaught `OverflowError` and are modelled as
unparsable here. -/

/-- Digit run with CPython underscore rules: single underscores between
digits only.  Returns the accumulated value. -/
def pyDigitsGo (acc : Nat) : List Char → Option Nat
  | [] => some acc
  | c :: cs =>
    if c.isDigit then pyDigitsGo (acc * 10 + (c.toNat - 48)) cs
    else if c == '_' then
      match cs with
      | d :: ds => if d.isDigit then pyDigitsGo (acc * 10 + (d.toNat - 48)) ds else none
      | [] => none
    else none

/-- Digit run that must start with a digit. -/
def pyDigits : List Char → Option Nat
  | [] => none
  | c :: cs => if c.isDigit then pyDigitsGo (c.toNat - 48) cs else none

/-- CPython `int(str)`. -/
def pyInt (s : String) : Option Int :=
  match (pyStrip s).data with
  | '+' :: rest => (pyDigits rest).map (fun n => (n : Int))
  | '-' :: rest => (pyDigits rest).map (fun n => -(n : Int))
  | rest => (pyDigits rest).map (fun n => (n : Int))

/-- Digit group of a float literal: digits before the accumulated value and
count of digits consumed (underscore rules as for `int`). -/
def floatDigitsGo (acc cnt : Nat) : List Char → Option (Nat × Nat × List Char)
  | [] => some (acc, cnt, [])
  | c :: cs =>
    if c.isDigit then floatDigitsGo (acc * 10 + (c.toNat - 48)) (cnt + 1) cs
    else if c == '_' then
      match cs with
      | d :: ds =>
        if d.isDigit then floatDigitsGo (acc * 10 + (d.toNat - 48)) (cnt + 1) ds
        else none
      | [] => none
    else some (acc, cnt, c :: cs)

/-- CPython float literal syntax: optional sign, digits with optional decimal
point and fraction, optional exponent.  Produces sign, decimal mantissa and
base-ten exponent of the exact value.  Exponents of absolute value above 2000
(always out of double range given at least one nonzero digit) and the
`inf`/`nan` spellings yield `none` (see the section comment). -/
def pyFloatDecimal (s : String) : Option (Bool × Nat × Int) :=
  let t := (pyLower (pyStrip s)).data
  let (neg, t) :=
    match t with
    | '+' :: rest => (false, rest)
    | '-' :: rest => (true, rest)
    | rest => (false, rest)
  let intPart :=
    match t with
    | c :: _ =>
      if c.isDigit then floatDigitsGo 0 0 t
      else if c == '.' then some (0, 0, t) else none
    | [] => none
  match intPart with
  | none => none
  | some (ival, icnt, rest) =>
    let fracPart :=
      match rest with
      | '.' :: fs =>
        match fs with
        | c :: _ =>
          if c.isDigit then
            match floatDigitsGo 0 0 fs with
            | some (fv, fc, r) => some (fv, fc, r)
            | none => none
          else some (0, 0, fs)
        | [] => some (0, 0, [])
      | _ => some (0, 0, rest)
    match fracPart with
    | none => none
    | some (fval, fcnt, rest2) =>
      if icnt = 0 && fcnt = 0 then none
      else
        let expPart : Option Int :=
          match rest2 with
          | [] => some 0
          | 'e' :: es =>
            match es with
            | '+' :: ds => (pyDigits ds).map (fun n => (n : Int))
            | '-' :: ds => (pyDigits ds).map (fun n => -(n : Int))
            | ds => (pyDigits ds).map (fun n => (n : Int))
          | _ => none
        match expPart with
        | none => none
        | some e =>
          if e.natAbs > 2000 then none
          else some (neg, ival * 10 ^ fcnt + fval, e - (fcnt : Int))

/-- Floor of the base-two logarithm, by structural recursion on a fuel
argument so that it evaluates inside the kernel (`Nat.log2` itself is defined
by well-founded recursion). -/
def log2Fuel : Nat → Nat → Nat
  | 0, _ => 0
  | f + 1, n => if n ≥ 2 then log2Fuel f (n / 2) + 1 else 0

/-- Floor of the base-two logarithm of a positive number. -/
def natLog2 (n : Nat) : Nat :=
  log2Fuel n n

/-- Does `2 ^ e ≤ n / d` hold (for positive `n`, `d`)? -/
def le2pow (e : Int) (n d : Nat) : Bool :=
  if 0 ≤ e then 2 ^ e.toNat * d ≤ n else d ≤ n * 2 ^ (-e).toNat

/-- Round the positive rational `n / d` to the nearest IEEE binary64 value
(round half to even, subnormals included), returned as an exact pair
`(f, s)` with value `f / 2 ^ s`.  `none` signals overflow to infinity. -/
def roundB64Rat (n d : Nat) : Option (Nat × Int) :=
  if n = 0 || d = 0 then some (0, 0)
  else
    let l : Int := (natLog2 n : Int) - (natLog2 d : Int)
    let et : Int :=
      if le2pow (l + 1) n d then l + 1
      else if le2pow l n d then l else l - 1
    let s : Int := if et < -1022 then 1074 else 52 - et
    let num := n * 2 ^ (max s 0).toNat
    let den := d * 2 ^ (max (-s) 0).toNat
    let f0 := num / den
    let r := num % den
    let f :=
      if 2 * r > den then f0 + 1
      else if 2 * r < den then f0
      else if f0 % 2 = 0 then f0 else f0 + 1
    if 0 ≤ 1024 + s && f ≥ 2 ^ (1024 + s).toNat then none
    else some (f, s)

/-- Exact rational value (numerator, denominator) of the binary64 pair. -/
def b64ToFrac (fs : Nat × Int) : Nat × Nat :=
  if fs.2 ≥ 0 then (fs.1, 2 ^ fs.2.toNat) else (fs.1 * 2 ^ (-fs.2).toNat, 1)

/-- CPython `int(float(s) * 1000)` for finite results: parse, round to
binary64, multiply by 1000 (exact in the integers), round to binary64 again,
truncate toward zero. -/
def pyFloatTimes1000Int (s : String) : Option Int :=
  match pyFloatDecimal s with
  | none => none
  | some (neg, m, e10) =>
    let n0 := m * 10 ^ (max e10 0).toNat
    let d0 := 10 ^ (max (-e10) 0).toNat
    match roundB64Rat n0 d0 with
    | none => none
    | some fs =>
      let (n1, d1) := b64ToFrac fs
      match roundB64Rat (n1 * 1000) d1 with
      | none => none
      | some fs2 =>
        let (n2, d2) := b64ToFrac fs2
        let t : Nat := n2 / d2
        some (if neg then -(t : Int) else (t : Int))

/-! ## Keyword tables and URL helpers of the source -/

/-- `PROFILE_MARKERS` from the source. -/
def PROFILE_MARKERS : List String :=
  ["avatar", "profile", "userpic", "gravatar", "author-photo", "member-photo",
   "display-picture"]

/-- `THUMB_HINTS` from the source. -/
def THUMB_HINTS : List String :=
  ["thumb", "thumbnail", "_tn", "-tn", "_sm", "-sm", "_small", "-small",
   "small/", "/small"]

/-- `NEXT_TEXT_MARKERS` from the source. -/
def NEXT_TEXT_MARKERS : List String :=
  ["next", "older", "more", "weiter", "suivant", "volgende", "nast",
   "›", "»", ">>", ">"]

/-- `IMAGE_ATTRS` from the source. -/
def IMAGE_ATTRS : List String :=
  ["src", "data-src", "data-original", "data-full", "data-lazy-src"]

/-- `URL_QUERY_THUMB_KEYS` from the source (a Python set; only membership is
used). -/
def URL_QUERY_THUMB_KEYS : List String :=
  ["w", "h", "width", "height", "size", "thumb", "thumbnail", "fit", "crop",
   "quality"]

/-- Python `str.startswith` for one pattern. -/
def startsWithStr (s p : String) : Bool :=
  leadsWith p.data s.data

/-- Python `str.endswith` for one pattern. -/
def endsWithStr (s p : String) : Bool :=
  leadsWith p.data.reverse s.data.reverse

/-- `keyword_match` from the source. -/
def keyword_match (value : String) (keywords : List String) : Bool :=
  keywords.any (fun k => strHas (pyLower value) k)

/-- `normalize_url` from the source. -/
def normalize_url (raw_url base_url : String) : Option String :=
  let raw := pyStrip raw_url
  if raw = "" then none
  else if ["javascript:", "mailto:", "tel:", "#"].any (fun p => startsWithStr raw p) then
    none
  else
    let url := urljoin base_url raw
    let parsed := urlparse url ""
    if parsed.scheme ≠ "http" && parsed.scheme ≠ "https" then none
    else some (urlunparse { parsed with fragment := "" })

/-- `host_of` from the source. -/
def host_of (url : String) : String :=
  pyLower (urlparse url "").netloc

/-- Image-file suffixes of `looks_like_image_url`. -/
def imageSuffixes : List String :=
  [".jpg", ".jpeg", ".png", ".gif", ".webp", ".bmp", ".tif", ".tiff", ".svg",
   ".avif", ".heic"]

/-- `looks_like_image_url` from the source. -/
def looks_like_image_url (url : String) : Bool :=
  let path := pyLower (urlparse url "").path
  imageSuffixes.any (fun suf => endsWithStr path suf)

/-- Characters the `sanitize_name` regex keeps. -/
def sanitizeKeep (c : Char) : Bool :=
  (c ≥ 'a' && c ≤ 'z') || (c ≥ '0' && c ≤ '9') || c == '.' || c == '_' || c == '-'

/-- Run-collapsing engine for the `sanitize_name` regex
`[^a-z0-9._-]+ -> "_"` (fuel is the list length). -/
def sanitizeGo : Nat → List Char → List Char
  | 0, l => l
  | _ + 1, [] => []
  | f + 1, c :: cs =>
    if sanitizeKeep c then c :: sanitizeGo f cs
    else '_' :: sanitizeGo f (cs.dropWhile (fun d => ¬ sanitizeKeep d))

/-- `sanitize_name` from the source. -/
def sanitize_name (text : String) : String :=
  let t := pyLower (pyStrip text)
  let t := String.mk (sanitizeGo t.data.length t.data)
  let t := pyStripChars t ['.', '_']
  if t = "" then "image" else t

/-- The descriptor score of one srcset entry, from the body of
`parse_srcset_best`: `<N>w` scores `int(N)`, `<N>x` scores
`int(float(N) * 1000)`, anything else (including a missing descriptor and
unparsable numbers) scores 1. -/
def descriptorScore (bits : List String) : Int :=
  match bits with
  | [] => 1
  | b :: _ =>
    let token := pyLower (pyStrip b)
    if endsWithStr token "w" then
      match pyInt (String.mk token.data.dropLast) with
      | some n => n
      | none => 1
    else if endsWithStr token "x" then
      match pyFloatTimes1000Int (String.mk token.data.dropLast) with
      | some n => n
      | none => 1
    else 1

/-- One srcset chunk as `parse_srcset_best` sees it: the normalised URL and
its descriptor score, or nothing when the chunk is blank or its URL does not
normalise. -/
def srcsetEntry (base_url chunk : String) : Option (String × Int) :=
  let part := pyStrip chunk
  if part = "" then none
  else
    match pySplitWS part with
    | [] => none
    | raw :: bits =>
      match normalize_url raw base_url with
      | none => none
      | some candidate => some (candidate, descriptorScore bits)

/-- All scored entries of a srcset attribute value, in source order. -/
def srcsetEntries (srcset base_url : String) : List (String × Int) :=
  (splitCharStr ',' srcset).filterMap (srcsetEntry base_url)

/-- The loop body of `parse_srcset_best`: keep the new entry exactly when
its score strictly exceeds the best score so far. -/
def srcsetStep (base_url : String) (best : Option String × Int)
    (chunk : String) : Option String × Int :=
  match srcsetEntry base_url chunk with
  | none => best
  | some (candidate, score) =>
    if score > best.2 then (some candidate, score) else best

/-- `parse_srcset_best` from the source: fold over comma-separated chunks,
keeping the first URL whose descriptor score strictly exceeds every earlier
one (starting best score: -1). -/
def parse_srcset_best (srcset base_url : String) : Option String :=
  ((splitCharStr ',' srcset).foldl (srcsetStep base_url) (none, -1)).1

/-- `strip_thumbnail_query_params` from the source. -/
def strip_thumbnail_query_params (url : String) : String :=
  let parsed := urlparse url ""
  if parsed.query = "" then url
  else
    let kept := (parse_qsl parsed.query).filter
      (fun kv => ¬ URL_QUERY_THUMB_KEYS.contains (pyLower kv.1))
    let newQuery := joinWith "&"
      (kept.map (fun kv => if kv.2 ≠ "" then kv.1 ++ "=" ++ kv.2 else kv.1))
    urlunparse { parsed with query := newQuery }

/-! ## Path-rewrite rules of `guess_fullsize_variants`

The two `re.sub` rules are modelled as character scanners with the exact
semantics of the patterns on ASCII input: word characters are
`[a-zA-Z0-9_]`, alternatives are tried in pattern order at each position, and
scanning resumes after a replaced (deleted) match, as `re.sub` does. -/

/-- Word character of the regex `\b` boundary (ASCII fragment of `\w`). -/
def wordChar (c : Char) : Bool :=
  (c ≥ 'a' && c ≤ 'z') || (c ≥ 'A' && c ≤ 'Z') || (c ≥ '0' && c ≤ '9') || c == '_'

/-- Case-insensitive match of a lowercase pattern at the head of the list;
returns the characters after the match. -/
def ciAfter : List Char → List Char → Option (List Char)
  | [], l => some l
  | _ :: _, [] => none
  | p :: ps, c :: cs => if p == c.toLower then ciAfter ps cs else none

/-- Try the alternatives of `([_-])(thumb|thumbnail|small|sm|tn)\b` after the
separator character, in pattern order, with the trailing boundary check. -/
def sub1Alts (l : List Char) : Option (List Char) :=
  go ["thumb", "thumbnail", "small", "sm", "tn"]
where
  go : List String → Option (List Char)
    | [] => none
    | alt :: alts =>
      match ciAfter alt.data l with
      | some rest =>
        match rest with
        | [] => some []
        | d :: _ => if wordChar d then go alts else some rest
      | none => go alts

/-- Scanner for `re.sub(r"(?i)([_-])(thumb|thumbnail|small|sm|tn)\b", "", path)`
(fuel is the list length). -/
def thumbSub1Go : Nat → List Char → List Char
  | 0, l => l
  | _ + 1, [] => []
  | f + 1, c :: cs =>
    if c == '_' || c == '-' then
      match sub1Alts cs with
      | some rest => thumbSub1Go f rest
      | none => c :: thumbSub1Go f cs
    else c :: thumbSub1Go f cs

/-- Try the alternatives of `\b(thumb|thumbnail|small)[_-]` in pattern order;
returns the rest after the separator together with the separator consumed. -/
def sub2Alts (l : List Char) : Option (List Char × Char) :=
  go ["thumb", "thumbnail", "small"]
where
  go : List String → Option (List Char × Char)
    | [] => none
    | alt :: alts =>
      match ciAfter alt.data l with
      | some (d :: rest) =>
        if d == '_' || d == '-' then some (rest, d) else go alts
      | some [] => go alts
      | none => go alts

/-- Scanner for `re.sub(r"(?i)\b(thumb|thumbnail|small)[_-]", "", path)`,
tracking the previous character of the original string for the `\b` test
(fuel is the list length). -/
def thumbSub2Go : Nat → Option Char → List Char → List Char
  | 0, _, l => l
  | _ + 1, _, [] => []
  | f + 1, prev, c :: cs =>
    let boundary :=
      wordChar c &&
        (match prev with
         | none => true
         | some p => ¬ wordChar p)
    if boundary then
      match sub2Alts (c :: cs) with
      | some (rest, d) => thumbSub2Go f (some d) rest
      | none => c :: thumbSub2Go f (some c) cs
    else c :: thumbSub2Go f (some c) cs

/-- The five path-rewrite rule results of `guess_fullsize_variants`, in the
order they are written in the source set literal. -/
def pathRuleResults (path : String) : List String :=
  [strReplace path "/thumb/" "/",
   strReplace path "/thumbs/" "/",
   strReplace path "/thumbnail/" "/",
   String.mk (thumbSub1Go path.data.length path.data),
   String.mk (thumbSub2Go path.data.length none path.data)]

/-- The Python set `path_variants` as a duplicate-free list in first-written
order.  Iteration order of the real set is hash-seed dependent; an `enum`
argument below chooses the order, and admissible choices are exactly the
permutations of this list. -/
def pathVariantList (url : String) : List String :=
  dedupFirst (pathRuleResults (urlparse url "").path)

/-- `guess_fullsize_variants` from the source.  `enum` models the iteration
order of the Python set literal `path_variants` (CPython string hashing is
seed-randomised, so the order can differ between two runs of the program);
an admissible `enum` returns a permutation of its argument. -/
def guess_fullsize_variants (enum : List String → List String) (url : String) :
    List String :=
  let variants := [url]
  let cleaned := strip_thumbnail_query_params url
  let variants := if cleaned ≠ url then variants ++ [cleaned] else variants
  let parsed := urlparse url ""
  let path := parsed.path
  let pvs := enum (pathVariantList url)
  let variants := variants ++
    ((pvs.filter (fun p => ¬ (p = "" || p = path))).map
      (fun p => urlunparse { parsed with path := p }))
  dedupFirst variants


/-! ## Parsed HTML model

The spec treats HTML parsing as a black-box capability producing a tree
queryable by tag name and attribute values, with multi-valued attributes
(`class`, `rel`) surfaced as lists, as BeautifulSoup does.  A page is a
forest of nodes; `find_all` is modelled as a preorder walk (BeautifulSoup
document order) carrying each element together with its parent.  The parent
of a top-level element is the document object, which has name `[document]`
and no attributes; it is modelled as `none`. -/

inductive AttrVal where
  | s (v : String)
  | l (vs : List String)
deriving Repr, DecidableEq

inductive Node where
  | elem (name : String) (attrs : List (String × AttrVal)) (children : List Node)
  | text (s : String)
deriving Repr

/-- Tag name of a node (text nodes have none). -/
def Node.nameOf : Node → String
  | .elem n _ _ => n
  | .text _ => ""

/-- Attribute list of a node. -/
def Node.attrsOf : Node → List (String × AttrVal)
  | .elem _ a _ => a
  | .text _ => []

/-- Children of a node. -/
def Node.childrenOf : Node → List Node
  | .elem _ _ c => c
  | .text _ => []

/-- BeautifulSoup `tag.get(key)`. -/
def getAttr (n : Node) (key : String) : Option AttrVal :=
  (n.attrsOf.find? (fun p => p.1 == key)).map (fun p => p.2)

/-- Python truthiness of an attribute value (`None`, `""` and `[]` are
falsy). -/
def attrTruthy : Option AttrVal → Bool
  | none => false
  | some (.s v) => v ≠ ""
  | some (.l vs) => vs ≠ []

/-- Python `str()` of an attribute value with default `""`: a string is
itself, a list is rendered with brackets and quoted items, as
`str(["a", "b"])` does (attribute values without quote characters, the only
inputs the claims exercise). -/
def pyStrAttr : Option AttrVal → String
  | none => ""
  | some (.s v) => v
  | some (.l vs) =>
    "[" ++ joinWith ", " (vs.map (fun v => "\x27" ++ v ++ "\x27")) ++ "]"

/-- The idiom `" ".join(tag.get("rel", [])).lower() if tag.get("rel") else ""`
from the source.  For a (non-standard) plain-string `rel`, Python `join`
iterates over its characters. -/
def relJoined (n : Node) : String :=
  match getAttr n "rel" with
  | none => ""
  | some (.l vs) =>
    if vs ≠ [] then pyLower (joinWith " " vs) else ""
  | some (.s v) =>
    if v ≠ "" then pyLower (joinWith " " (v.data.map (fun c => String.mk [c]))) else ""

mutual

/-- Descendant text strings of a node in document order. -/
def collectTexts : Node → List String
  | .text s => [s]
  | .elem _ _ cs => collectTextsList cs

/-- Descendant text strings of a forest in document order. -/
def collectTextsList : List Node → List String
  | [] => []
  | n :: ns => collectTexts n ++ collectTextsList ns

end

/-- BeautifulSoup `tag.get_text(" ", strip=True)`: strip each descendant
string, drop the ones that become empty, join the rest with one space. -/
def getTextSep (n : Node) : String :=
  joinWith " " (((collectTexts n).map pyStrip).filter (fun t => t ≠ ""))

mutual

/-- Preorder walk of a node producing every element with its parent
(BeautifulSoup `find_all` document order). -/
def nodeWalk (parent : Option Node) : Node → List (Node × Option Node)
  | .text _ => []
  | .elem nm a cs =>
    (Node.elem nm a cs, parent) :: nodeWalkList (Node.elem nm a cs) cs

/-- Preorder walk of a forest of children. -/
def nodeWalkList (parent : Node) : List Node → List (Node × Option Node)
  | [] => []
  | n :: ns => nodeWalk (some parent) n ++ nodeWalkList parent ns

end

/-- BeautifulSoup `soup.find_all(name)` over a page forest, with parents. -/
def findAllNamed (soup : List Node) (nm : String) : List (Node × Option Node) :=
  (soup.foldr (fun n acc => nodeWalk none n ++ acc) []).filter
    (fun p => p.1.nameOf == nm)

/-! ## Heuristic classifier and candidate extractor -/

/-- `ImageCandidate` from the source (the URL tuple as a list). -/
structure ImageCandidate where
  page_url : String
  urls : List String
  skip_profile : Bool
deriving Repr, DecidableEq

/-- `is_likely_profile_image` from the source.  The parent is passed
explicitly (the source reads `tag.parent`). -/
def is_likely_profile_image (tag : Node) (parent : Option Node) (url : String) :
    Bool :=
  let url_l := pyLower url
  if keyword_match url_l PROFILE_MARKERS then true
  else
    let scanOf := fun (n : Node) (attrList : List String) =>
      attrList.flatMap (fun attr =>
        match getAttr n attr with
        | some (.l vs) => vs
        | some (.s v) => if v ≠ "" then [v] else []
        | none => [])
    let attrsToScan :=
      scanOf tag ["class", "id", "alt", "title"] ++
        (match parent with
         | some p => scanOf p ["class", "id"]
         | none => [])
    attrsToScan.any (fun t => keyword_match t PROFILE_MARKERS)

/-- URL collection per `img` element: the best srcset entry, then the
`IMAGE_ATTRS` values in order, and (inserted at the front) a parent-link
target that looks like an image file. -/
def collectImgUrls (page_url : String) (ip : Node × Option Node) : List String :=
  let img := ip.1
  let parent := ip.2
  let urls : List String :=
    (let srcset := getAttr img "srcset"
     if attrTruthy srcset then
       match parse_srcset_best (pyStrAttr srcset) page_url with
       | some best => [best]
       | none => []
     else []) ++
    IMAGE_ATTRS.flatMap (fun attr =>
      let raw := getAttr img attr
      if attrTruthy raw then
        match normalize_url (pyStrAttr raw) page_url with
        | some n => [n]
        | none => []
      else [])
  match parent with
  | some p =>
    if p.nameOf == "a" then
      let href := getAttr p "href"
      if attrTruthy href then
        match normalize_url (pyStrAttr href) page_url with
        | some anchor =>
          if looks_like_image_url anchor then anchor :: urls else urls
        | none => urls
      else urls
    else urls
  | none => urls

/-- The per-`img`-element body of `extract_image_candidates`: expand each
collected URL through the Variant Resolver with cross-URL first-occurrence
dedup; yield no candidate when nothing was collected. -/
def imgCandidateOf (enum : List String → List String) (page_url : String)
    (ip : Node × Option Node) : Option ImageCandidate :=
  match dedupFirst ((collectImgUrls page_url ip).flatMap
      (guess_fullsize_variants enum)) with
  | [] => none
  | first :: rest =>
    some ⟨page_url, first :: rest, is_likely_profile_image ip.1 ip.2 first⟩

/-- The plain-anchor body of `extract_image_candidates`: anchors whose target
looks like a direct image file and is not profile-flagged by URL alone. -/
def anchorCandidateOf (enum : List String → List String) (page_url : String)
    (ap : Node × Option Node) : Option ImageCandidate :=
  if ¬ attrTruthy (getAttr ap.1 "href") then none
  else
    match normalize_url (pyStrAttr (getAttr ap.1 "href")) page_url with
    | none => none
    | some normalized =>
      if ¬ looks_like_image_url normalized then none
      else if keyword_match normalized PROFILE_MARKERS then none
      else some ⟨page_url, guess_fullsize_variants enum normalized, false⟩

/-- `extract_image_candidates` from the source: the `img` loop, the anchor
loop, and a final dedup keeping the first candidate per distinct
first-preference URL (`candidate.urls[0]`; extractor candidates always have a
non-empty URL list). -/
def extract_image_candidates (enum : List String → List String)
    (soup : List Node) (page_url : String) : List ImageCandidate :=
  dedupByFirst
    ((findAllNamed soup "img").filterMap (imgCandidateOf enum page_url) ++
      (findAllNamed soup "a").filterMap (anchorCandidateOf enum page_url))
where
  dedupByFirst (cands : List ImageCandidate) : List ImageCandidate :=
    go [] cands
  go (seen : List String) : List ImageCandidate → List ImageCandidate
    | [] => []
    | c :: cs =>
      let key := c.urls.headD ""
      if key ∈ seen then go seen cs else c :: go (key :: seen) cs

/-- The regex `[?&](page|p)=\d+` searched on an already-lowercased URL
(`\d` restricted to ASCII digits, the only digits the claims exercise). -/
def pageQueryPattern (s : String) : Bool :=
  go s.data
where
  go : List Char → Bool
    | [] => false
    | c :: cs =>
      (if c == '?' || c == '&' then
        (leadsWith ['p', 'a', 'g', 'e', '='] cs &&
          (match cs.drop 5 with
           | d :: _ => d.isDigit
           | [] => false)) ||
        (leadsWith ['p', '='] cs &&
          (match cs.drop 2 with
           | d :: _ => d.isDigit
           | [] => false))
      else false) || go cs

/-- `is_next_link` from the source. -/
def is_next_link (tag : Node) (href : String) : Bool :=
  let rel := relJoined tag
  if strHas rel "next" then true
  else
    let text := pyLower (getTextSep tag)
    let attrs := pyLower (joinWith " "
      [pyStrAttr (getAttr tag "class"), pyStrAttr (getAttr tag "id"),
       pyStrAttr (getAttr tag "aria-label"), pyStrAttr (getAttr tag "title")])
    let href_l := pyLower href
    if keyword_match text NEXT_TEXT_MARKERS then true
    else if keyword_match attrs ["next", "pagination", "pager", "older", "newer"] then
      true
    else if pageQueryPattern href_l then true
    else false

/-- Four consecutive ASCII digits, the `\d{4}` search. -/
def hasFourDigits (s : String) : Bool :=
  go s.data
where
  go : List Char → Bool
    | a :: b :: c :: d :: rest =>
      (a.isDigit && b.isDigit && c.isDigit && d.isDigit) || go (b :: c :: d :: rest)
    | _ => false

/-- `is_probable_content_link` from the source. -/
def is_probable_content_link (tag : Node) (href : String) : Bool :=
  let href_l := pyLower href
  let attrs := pyLower (joinWith " "
    [pyStrAttr (getAttr tag "class"), pyStrAttr (getAttr tag "id"),
     pyStrAttr (getAttr tag "rel")])
  let text := pyLower (getTextSep tag)
  if ["/post", "/posts/", "/blog/", "/article", "/topic", "/thread",
      "/forum/"].any (fun x => strHas href_l x) then true
  else if ["post", "entry", "topic", "thread", "article"].any
      (fun x => strHas attrs x) then true
  else if text.length > 15 && hasFourDigits href_l then true
  else false

/-- The pagination-container regex `(pagination|pager|pagenav|nav-links)`
(case-insensitive search) applied to a class value. -/
def paginationClassPattern (v : String) : Bool :=
  ["pagination", "pager", "pagenav", "nav-links"].any
    (fun w => strHas (pyLower v) w)

/-- BeautifulSoup attribute matching of `find_all(attrs={"class": regex})`:
for a multi-valued class the regex is searched against each token. -/
def classMatchesPagination (n : Node) : Bool :=
  match getAttr n "class" with
  | some (.l vs) => vs.any paginationClassPattern
  | some (.s v) => paginationClassPattern v
  | none => false

/-- `discover_links` from the source.  The Python sets `next_links` and
`content_links` are modelled as duplicate-free lists (only membership and a
final sorted union are ever used). -/
def discover_links (soup : List Node) (page_url : String)
    (follow_content_links : Bool) : List String × List String :=
  let linkTags := findAllNamed soup "link"
  let nl1 := linkTags.filterMap (fun lp =>
    let href := getAttr lp.1 "href"
    if ¬ attrTruthy href then none
    else
      match normalize_url (pyStrAttr href) page_url with
      | none => none
      | some normalized =>
        if strHas (relJoined lp.1) "next" then some normalized else none)
  let aTags := findAllNamed soup "a"
  let nl2 := aTags.filterMap (fun ap =>
    let href := getAttr ap.1 "href"
    if ¬ attrTruthy href then none
    else
      match normalize_url (pyStrAttr href) page_url with
      | none => none
      | some normalized =>
        if is_next_link ap.1 normalized then some normalized else none)
  let cl := aTags.filterMap (fun ap =>
    let href := getAttr ap.1 "href"
    if ¬ attrTruthy href then none
    else
      match normalize_url (pyStrAttr href) page_url with
      | none => none
      | some normalized =>
        if follow_content_links && is_probable_content_link ap.1 normalized then
          some normalized
        else none)
  let containers := (soup.foldr (fun n acc => nodeWalk none n ++ acc) []).filter
    (fun p => classMatchesPagination p.1)
  let nl3 := containers.foldr (fun cp acc =>
    ((cp.1.childrenOf.foldr (fun n a => nodeWalk (some cp.1) n ++ a) []).filter
      (fun p => p.1.nameOf == "a")).filterMap (fun ap =>
        let href := getAttr ap.1 "href"
        if ¬ attrTruthy href then none
        else normalize_url (pyStrAttr href) page_url) ++ acc) []
  (dedupFirst (nl1 ++ nl2 ++ nl3), dedupFirst cl)


/-! ## External capabilities and responses

`requests.Session.get` is modelled as a partial function from URL to
response (`none` models a raised `requests.RequestException`); BeautifulSoup
parsing, `hashlib.sha256` hex digests and the `mimetypes` extension table are
further black-box capabilities bundled into a `World`.  Byte strings are
lists of naturals.  Every call of the fetch capability is recorded in a
trace, page fetches and image fetches tagged separately. -/

structure Resp where
  status_code : Nat
  content_type : Option String
  content : List Nat
  text : String
deriving Repr, DecidableEq

structure World where
  fetch : String → Option Resp
  parseHtml : String → List Node
  sha256hex : List Nat → String
  mimeExt : String → Option String

/-- Pathlib `Path(p).name`: last component, with empty and `.` components
dropped. -/
def pathName (path : String) : String :=
  (((splitCharStr '/' path).filter (fun p => p ≠ "" && p ≠ ".")).getLast?).getD ""

/-- Pathlib `Path(p).stem`. -/
def pathStem (path : String) : String :=
  let nm := pathName path
  match rfindChar nm '.' with
  | some i => if 0 < i && i < nm.length - 1 then String.mk (nm.data.take i) else nm
  | none => nm

/-- Pathlib `Path(p).suffix`. -/
def pathSuffix (path : String) : String :=
  let nm := pathName path
  match rfindChar nm '.' with
  | some i => if 0 < i && i < nm.length - 1 then String.mk (nm.data.drop i) else ""
  | none => ""

/-- `guess_extension` from the source. -/
def guess_extension (w : World) (url : String) (content_type : String) : String :=
  let suffix := pyLower (pathSuffix (urlparse url "").path)
  if imageSuffixes.contains suffix then suffix
  else
    let key := pyLower (pyStrip (((splitCharStr ';' content_type).headD "")))
    match w.mimeExt key with
    | some g => if g ≠ "" then g else ".jpg"
    | none => ".jpg"

/-- Result of `download_image`: the returned four-tuple, the updated
`seen_hashes` set, the files written, and the URLs passed to the fetch
capability, in call order. -/
structure DLResult where
  status : String
  saved_path : Option String
  byte_count : Option Nat
  digest : Option String
  seen_hashes : List String
  writes : List (String × List Nat)
  fetched : List String
deriving Repr, DecidableEq

/-- Record one more fetched URL at the front of the attempt list. -/
def DLResult.addFetch (r : DLResult) (url : String) : DLResult :=
  { r with fetched := url :: r.fetched }

/-- The variant loop of `download_image`, one step per variant URL. -/
def downloadGo (w : World) (skip_profile : Bool) (output_dir : String)
    (dry_run : Bool) (skip_url_keywords : List String) :
    List String → List String → DLResult
  | seen, [] => ⟨"failed_all_variants", none, none, none, seen, [], []⟩
  | seen, url :: rest =>
    if keyword_match url skip_url_keywords then
      ⟨"skipped_custom_keyword", none, none, none, seen, [], []⟩
    else if skip_profile then
      ⟨"skipped_profile", none, none, none, seen, [], []⟩
    else
      match w.fetch url with
      | none =>
        (downloadGo w skip_profile output_dir dry_run skip_url_keywords seen rest).addFetch url
      | some resp =>
        if resp.status_code ≥ 400 then
          (downloadGo w skip_profile output_dir dry_run skip_url_keywords seen rest).addFetch url
        else
          let content_type := pyLower (resp.content_type.getD "")
          if ¬ strHas content_type "image" && ¬ looks_like_image_url url then
            (downloadGo w skip_profile output_dir dry_run skip_url_keywords seen rest).addFetch url
          else
            let data := resp.content
            if data = [] then
              (downloadGo w skip_profile output_dir dry_run skip_url_keywords seen rest).addFetch url
            else if data.length < 512 && keyword_match url THUMB_HINTS then
              (downloadGo w skip_profile output_dir dry_run skip_url_keywords seen rest).addFetch url
            else
              let digest := w.sha256hex data
              if seen.contains digest then
                ⟨"duplicate", none, some data.length, some digest, seen, [], [url]⟩
              else if dry_run then
                ⟨"would_download", none, some data.length, some digest,
                  digest :: seen, [], [url]⟩
              else
                let ext := guess_extension w url content_type
                let stem0 := pathStem (urlparse url "").path
                let stem := sanitize_name (if stem0 ≠ "" then stem0 else "image")
                let filename := stem ++ "_" ++ String.mk (digest.data.take 12) ++ ext
                let out_path := output_dir ++ "/" ++ filename
                ⟨"downloaded", some out_path, some data.length, some digest,
                  digest :: seen, [(out_path, data)], [url]⟩

/-- `download_image` from the source. -/
def download_image (w : World) (candidate : ImageCandidate) (output_dir : String)
    (seen_hashes : List String) (dry_run : Bool)
    (skip_url_keywords : List String) : DLResult :=
  downloadGo w candidate.skip_profile output_dir dry_run skip_url_keywords
    seen_hashes candidate.urls

/-- `is_html_response` from the source. -/
def is_html_response (resp : Resp) : Bool :=
  let ctype := pyLower (resp.content_type.getD "")
  strHas ctype "text/html" || strHas ctype "application/xhtml+xml" || ctype == ""

/-! ## Crawl traversal -/

/-- The configuration surface of `crawl_and_download` (transport-only options
such as timeout, delay and user agent are absorbed into the fetch capability;
`max_pages` is taken non-negative). -/
structure Args where
  start_urls : List String
  output : String
  max_pages : Nat
  allow_cross_domain : Bool
  no_follow_content_links : Bool
  dry_run : Bool
  skip_url_keyword : List String
deriving Repr, DecidableEq

/-- One call of the fetch capability, tagged by which call site issued it. -/
inductive FetchEvent where
  | page (url : String)
  | image (url : String)
deriving Repr, DecidableEq

/-- A data row of the manifest (the header row is not modelled). -/
structure Row where
  page_url : String
  image_url : String
  status : String
  saved_path : Option String
  byte_count : Option Nat
  digest : Option String
  variant_count : Nat
deriving Repr, DecidableEq

/-- Mutable state of the crawl loop: the three seen sets, the page counter,
the manifest rows in append order, the files written, the fetch trace, and a
count of `download_image` invocations. -/
structure CrawlState where
  visited : List String
  seen_image_urls : List String
  seen_hashes : List String
  total_pages : Nat
  rows : List Row
  writes : List (String × List Nat)
  trace : List FetchEvent
  resolver_calls : Nat
deriving Repr, DecidableEq

/-- Python string comparison (code-point lexicographic `<`). -/
def strLt (a b : String) : Bool :=
  go a.data b.data
where
  go : List Char → List Char → Bool
    | [], [] => false
    | [], _ :: _ => true
    | _ :: _, [] => false
    | a :: as, b :: bs =>
      if a.val < b.val then true else if b.val < a.val then false else go as bs

/-- Insert into an ascending list. -/
def insertSorted (x : String) : List String → List String
  | [] => [x]
  | y :: ys => if strLt y x then y :: insertSorted x ys else x :: y :: ys

/-- Python `sorted` for lists of strings. -/
def sortStrs (l : List String) : List String :=
  l.foldl (fun acc x => insertSorted x acc) []

/-- The per-candidate body of the crawl loop: skip candidates whose
first-preference URL was already processed, otherwise run the Dedup & Fetch
Resolver and append exactly one manifest row. -/
def processCandidates (w : World) (args : Args) (page_url image_out_dir : String)
    (skip_keywords : List String) :
    List ImageCandidate → CrawlState → CrawlState
  | [], st => st
  | c :: cs, st =>
    let first_url := c.urls.headD ""
    if st.seen_image_urls.contains first_url then
      processCandidates w args page_url image_out_dir skip_keywords cs st
    else
      let st := { st with seen_image_urls := first_url :: st.seen_image_urls }
      let r := download_image w c image_out_dir st.seen_hashes args.dry_run
        skip_keywords
      let row : Row := ⟨page_url, first_url, r.status, r.saved_path,
        r.byte_count, r.digest, c.urls.length⟩
      processCandidates w args page_url image_out_dir skip_keywords cs
        { st with
          seen_hashes := r.seen_hashes,
          rows := st.rows ++ [row],
          writes := st.writes ++ r.writes,
          trace := st.trace ++ r.fetched.map FetchEvent.image,
          resolver_calls := st.resolver_calls + 1 }

/-- The pop-and-skip phase of the crawl loop: pop frontier entries, skipping
already-visited ones, out-of-allowlist ones (when cross-domain is disabled),
failed fetches and non-HTML responses, until a page is ready for processing
or the frontier empties.  Entries popped here are marked visited; the page
counter does not change. -/
def popPhase (w : World) (args : Args) (allowed_hosts : List String) :
    List String → CrawlState → Option (String × Resp × List String) × CrawlState
  | [], st => (none, st)
  | u :: rest, st =>
    if st.visited.contains u then popPhase w args allowed_hosts rest st
    else
      let st := { st with visited := u :: st.visited }
      if ¬ args.allow_cross_domain && ¬ allowed_hosts.contains (host_of u) then
        popPhase w args allowed_hosts rest st
      else
        let st := { st with trace := st.trace ++ [FetchEvent.page u] }
        match w.fetch u with
        | none => popPhase w args allowed_hosts rest st
        | some resp =>
          if resp.status_code ≥ 400 || ¬ is_html_response resp then
            popPhase w args allowed_hosts rest st
          else (some (u, resp, rest), st)

/-- The while loop of `crawl_and_download`.  The budget is
`max_pages - total_pages`; it decreases exactly when a page is processed,
which is the only step that can grow the frontier, so the recursion is
structural in the budget while `popPhase` is structural in the queue. -/
def pagesLoop (w : World) (args : Args) (allowed_hosts skip_keywords : List String)
    (follow_content_links : Bool) (enum : List String → List String) :
    Nat → List String → CrawlState → CrawlState
  | 0, _, st => st
  | budget + 1, queue, st =>
    match popPhase w args allowed_hosts queue st with
    | (none, st) => st
    | (some (page_url, resp, rest), st) =>
      let st := { st with total_pages := st.total_pages + 1 }
      let soup := w.parseHtml resp.text
      let candidates := extract_image_candidates enum soup page_url
      let host_folder := sanitize_name (host_of page_url)
      let image_out_dir := args.output ++ "/" ++ host_folder ++ "/images"
      let st := processCandidates w args page_url image_out_dir skip_keywords
        candidates st
      let links := discover_links soup page_url follow_content_links
      let enq := (sortStrs (dedupFirst (links.1 ++ links.2))).filter
        (fun link => ¬ st.visited.contains link &&
          (args.allow_cross_domain || allowed_hosts.contains (host_of link)))
      pagesLoop w args allowed_hosts skip_keywords follow_content_links enum
        budget (rest ++ enq) st

/-- Overall result: the exit code (2 when no start URL is valid, 0
otherwise), the host allowlist, and the final loop state. -/
structure CrawlResult where
  exit_code : Nat
  allowed_hosts : List String
  state : CrawlState
deriving Repr, DecidableEq

/-- The empty crawl state. -/
def emptyState : CrawlState :=
  ⟨[], [], [], 0, [], [], [], 0⟩

/-- `crawl_and_download` from the source (filesystem-only steps such as
directory creation, the manifest header row and the summary printing are not
modelled; the manifest data rows are `state.rows`). -/
def crawl_and_download (w : World) (args : Args)
    (enum : List String → List String) : CrawlResult :=
  let start_urls := args.start_urls.filterMap (fun x => normalize_url x x)
  if start_urls = [] then ⟨2, [], emptyState⟩
  else
    let allowed_hosts := dedupFirst (start_urls.map host_of)
    let follow_content_links := ¬ args.no_follow_content_links
    let skip_keywords := args.skip_url_keyword.filterMap (fun k =>
      if pyStrip k = "" then none else some (pyLower (pyStrip k)))
    ⟨0, allowed_hosts,
      pagesLoop w args allowed_hosts skip_keywords follow_content_links enum
        args.max_pages start_urls emptyState⟩

/-- The page-fetch URLs of a trace, in order. -/
def pageFetches : List FetchEvent → List String
  | [] => []
  | .page u :: rest => u :: pageFetches rest
  | .image _ :: rest => pageFetches rest

/-- The image-fetch URLs of a trace, in order. -/
def imageFetches : List FetchEvent → List String
  | [] => []
  | .page _ :: rest => imageFetches rest
  | .image u :: rest => u :: imageFetches rest


/-! ## Claim-side definitions

Definitions in this section follow the words of spec claims (for refinement
comparisons against the embedded code) or instrument the embedding for the
statements below; they are not translations of source lines. -/

/-- Claim C6 as written: the chosen srcset entry is the one with the maximum
score, ties keeping the earliest-seen entry. -/
def srcsetClaimBest (srcset base_url : String) : Option String :=
  match srcsetEntries srcset base_url with
  | [] => none
  | e :: es =>
    some ((es.foldl (fun b f => if f.2 > b.2 then f else b) e).1)

/-- Claim C6 amended to the code: the chosen entry is the earliest one whose
score equals the maximum score over all entries, provided that maximum
exceeds -1; when every entry scores -1 or below (possible only through
negative numeric descriptors) nothing is chosen. -/
def srcsetAmendedSpec (srcset base_url : String) : Option String :=
  let entries := srcsetEntries srcset base_url
  let m : Int := entries.foldr (fun e acc => max e.2 acc) (-1)
  if m ≤ -1 then none
  else (entries.find? (fun e => e.2 == m)).map (fun e => e.1)

/-- Claim C7 as written: a link is a pagination (next) link iff its `rel`
contains `next`; or its visible text or its `aria-label`/`title`/`class`/`id`
attributes contain a marker from the fixed next-page set; or its `class`/`id`
contain `pagination`, `pager`, `older` or `newer`; or its URL matches the
`page=`/`p=` numeric query pattern. -/
def isNextClaim (tag : Node) (href : String) : Bool :=
  strHas (relJoined tag) "next" ||
  keyword_match (getTextSep tag) NEXT_TEXT_MARKERS ||
  (["aria-label", "title", "class", "id"].any (fun a =>
    keyword_match (pyStrAttr (getAttr tag a)) NEXT_TEXT_MARKERS)) ||
  (["class", "id"].any (fun a =>
    keyword_match (pyStrAttr (getAttr tag a)) ["pagination", "pager", "older", "newer"])) ||
  pageQueryPattern (pyLower href)

/-- Claim C7 amended to the code: the attribute check applies to the
four attributes joined together and only to the five markers `next`,
`pagination`, `pager`, `older`, `newer`; the full next-page marker set is
consulted for the visible text only. -/
def isNextAmendedSpec (tag : Node) (href : String) : Bool :=
  strHas (relJoined tag) "next" ||
  keyword_match (pyLower (getTextSep tag)) NEXT_TEXT_MARKERS ||
  keyword_match (pyLower (joinWith " "
    [pyStrAttr (getAttr tag "class"), pyStrAttr (getAttr tag "id"),
     pyStrAttr (getAttr tag "aria-label"), pyStrAttr (getAttr tag "title")]))
    ["next", "pagination", "pager", "older", "newer"] ||
  pageQueryPattern (pyLower href)

/-- Does fetching this variant URL advance `download_image` to the next
variant (transport failure, HTTP error, non-image response, empty body, or a
small body with a thumbnail-hint URL)? -/
def variantAdvancesB (w : World) (url : String) : Bool :=
  match w.fetch url with
  | none => true
  | some resp =>
    decide (400 ≤ resp.status_code) ||
    (¬ strHas (pyLower (resp.content_type.getD "")) "image" &&
      ¬ looks_like_image_url url) ||
    decide (resp.content = []) ||
    (decide (resp.content.length < 512) && keyword_match url THUMB_HINTS)

/-- The fields of a manifest row that do not depend on fetched image bytes:
page URL, chosen (first-preference) URL, and variant count. -/
def rowKey (r : Row) : String × String × Nat :=
  (r.page_url, r.image_url, r.variant_count)

/-- The six outcome values of the Dedup & Fetch Resolver. -/
def outcomeValues : List String :=
  ["downloaded", "would_download", "duplicate", "skipped_profile",
   "skipped_custom_keyword", "failed_all_variants"]

/-! ## Concrete worlds for witnesses and counterexamples -/

/-- A content-digest stand-in for witnesses: equal byte strings get equal
digests (the only property the dedup logic relies on). -/
def shaSum : List Nat → String :=
  fun b => "h" ++ toString (b.foldl (fun a c => a + c) 0)

/-- A page on host `a.com` whose only image lives on host `b.com`. -/
def page1 : List Node :=
  [Node.elem "html" [] [Node.elem "body" []
    [Node.elem "img" [("src", AttrVal.s "http://b.com/pic.jpg")] []]]]

/-- World for `page1`: the page fetch succeeds and the cross-host image
fetch succeeds. -/
def W1 : World :=
  { fetch := fun u =>
      if u = "http://a.com/" then
        some ⟨200, some "text/html", [], "P1"⟩
      else if u = "http://b.com/pic.jpg" then
        some ⟨200, some "image/jpeg", [1, 2, 3], ""⟩
      else none
    parseHtml := fun t => if t = "P1" then page1 else []
    sha256hex := shaSum
    mimeExt := fun _ => none }

/-- Dry-run configuration with one start URL on host `a.com`, cross-domain
disabled. -/
def args1 : Args :=
  ⟨["http://a.com/"], "out", 2000, false, false, true, []⟩

/-- A page containing only a `rel=next` link to itself. -/
def pageSelf : List Node :=
  [Node.elem "html" [] [Node.elem "body" []
    [Node.elem "a" [("rel", AttrVal.l ["next"]), ("href", AttrVal.s "/")]
      [Node.text "next"]]]]

/-- World for the self-linking page. -/
def WSelf : World :=
  { fetch := fun u =>
      if u = "http://s.com/" then some ⟨200, some "text/html", [], "S"⟩ else none
    parseHtml := fun t => if t = "S" then pageSelf else []
    sha256hex := shaSum
    mimeExt := fun _ => none }

/-- Configuration seeding the self-linking page. -/
def argsSelf : Args :=
  ⟨["http://s.com/"], "out", 2000, false, false, true, []⟩

/-- A page whose image URL has two distinct path-rewrite variants, so the
set-iteration order of `path_variants` is observable. -/
def page2 : List Node :=
  [Node.elem "html" [] [Node.elem "body" []
    [Node.elem "img" [("src", AttrVal.s "http://a.com/thumb/x-small.jpg")] []]]]

/-- World for `page2`: the original image URL returns 404 and both rewritten
variants succeed with different bodies (both above the small-size
threshold, since both variant URLs carry thumbnail hints). -/
def W2 : World :=
  { fetch := fun u =>
      if u = "http://a.com/" then some ⟨200, some "text/html", [], "P2"⟩
      else if u = "http://a.com/thumb/x-small.jpg" then
        some ⟨404, some "text/html", [], ""⟩
      else if u = "http://a.com/x-small.jpg" then
        some ⟨200, some "image/jpeg", List.replicate 512 1, ""⟩
      else if u = "http://a.com/thumb/x.jpg" then
        some ⟨200, some "image/jpeg", List.replicate 512 2, ""⟩
      else none
    parseHtml := fun t => if t = "P2" then page2 else []
    sha256hex := shaSum
    mimeExt := fun _ => none }

/-- World with two distinct URLs serving byte-identical image bodies, plus a
failing URL and an ordinary distinct image. -/
def W3 : World :=
  { fetch := fun u =>
      if u = "http://c.com/i1.png" then
        some ⟨200, some "image/png", [7, 7, 7], ""⟩
      else if u = "http://c.com/i2.png" then
        some ⟨200, some "image/png", [7, 7, 7], ""⟩
      else if u = "http://c.com/bad.png" then
        some ⟨404, some "image/png", [1], ""⟩
      else none
    parseHtml := fun _ => []
    sha256hex := shaSum
    mimeExt := fun _ => none }


/-- The candidate fields that drive the manifest's enum-independent columns:
the first-preference URL and the variant count. -/
def candRel (c1 c2 : ImageCandidate) : Prop :=
  c1.urls.headD "" = c2.urls.headD "" ∧ c1.urls.length = c2.urls.length

/-! ## Lemmas about first-occurrence dedup -/

theorem mem_dedupFirst_go {α : Type} [DecidableEq α] (x : α) :
    ∀ (l seen : List α), x ∈ dedupFirst.go seen l ↔ x ∈ l ∧ x ∉ seen := by
  intro l
  induction l with
  | nil => intro seen; simp [dedupFirst.go]
  | cons a as ih =>
    intro seen
    by_cases ha : a ∈ seen
    · rw [dedupFirst.go, if_pos ha, ih]
      constructor
      · exact fun h => ⟨List.mem_cons_of_mem a h.1, h.2⟩
      · rintro ⟨hx, hns⟩
        rcases List.mem_cons.mp hx with rfl | hx
        · exact absurd ha hns
        · exact ⟨hx, hns⟩
    · rw [dedupFirst.go, if_neg ha]
      constructor
      · intro h
        rcases List.mem_cons.mp h with rfl | h
        · exact ⟨List.mem_cons_self x as, ha⟩
        · have := (ih (a :: seen)).mp h
          refine ⟨List.mem_cons_of_mem a this.1, fun hs => this.2 (List.mem_cons_of_mem a hs)⟩
      · rintro ⟨hx, hns⟩
        rcases List.mem_cons.mp hx with rfl | hx
        · exact List.mem_cons_self x _
        · by_cases hxa : x = a
          · exact hxa ▸ List.mem_cons_self a _
          · exact List.mem_cons_of_mem a ((ih (a :: seen)).mpr
              ⟨hx, fun hs => (List.mem_cons.mp hs).elim hxa hns⟩)

theorem mem_dedupFirst {α : Type} [DecidableEq α] (x : α) (l : List α) :
    x ∈ dedupFirst l ↔ x ∈ l := by
  rw [dedupFirst, mem_dedupFirst_go]
  simp

theorem dedupFirst_go_nodup {α : Type} [DecidableEq α] :
    ∀ (l seen : List α), (dedupFirst.go seen l).Nodup := by
  intro l
  induction l with
  | nil => intro seen; simp [dedupFirst.go]
  | cons a as ih =>
    intro seen
    by_cases ha : a ∈ seen
    · rw [dedupFirst.go, if_pos ha]; exact ih seen
    · rw [dedupFirst.go, if_neg ha]
      refine List.nodup_cons.mpr ⟨fun h => ?_, ih (a :: seen)⟩
      exact ((mem_dedupFirst_go a as (a :: seen)).mp h).2 (List.mem_cons_self a seen)

theorem dedupFirst_nodup {α : Type} [DecidableEq α] (l : List α) :
    (dedupFirst l).Nodup :=
  dedupFirst_go_nodup l []

theorem dedupFirst_cons {α : Type} [DecidableEq α] (x : α) (l : List α) :
    dedupFirst (x :: l) = x :: dedupFirst.go [x] l := by
  rw [dedupFirst, dedupFirst.go, if_neg (List.not_mem_nil x)]

theorem dedupFirst_perm {α : Type} [DecidableEq α] {l1 l2 : List α}
    (h : l1.Perm l2) : (dedupFirst l1).Perm (dedupFirst l2) := by
  rw [List.perm_ext_iff_of_nodup (dedupFirst_nodup l1) (dedupFirst_nodup l2)]
  intro a
  rw [mem_dedupFirst, mem_dedupFirst]
  exact h.mem_iff


/-! ## Lemmas about the Variant Resolver -/

theorem guess_fullsize_variants_eq_dedup (enum : List String → List String)
    (url : String) :
    ∃ l, guess_fullsize_variants enum url = dedupFirst (url :: l) := by
  simp only [guess_fullsize_variants]
  split
  · exact ⟨_, rfl⟩
  · exact ⟨_, rfl⟩

theorem guess_fullsize_variants_head (enum : List String → List String)
    (url : String) :
    (guess_fullsize_variants enum url).head? = some url := by
  obtain ⟨l, hl⟩ := guess_fullsize_variants_eq_dedup enum url
  rw [hl, dedupFirst_cons]
  rfl

theorem guess_fullsize_variants_ne_nil (enum : List String → List String)
    (url : String) :
    guess_fullsize_variants enum url ≠ [] := by
  obtain ⟨l, hl⟩ := guess_fullsize_variants_eq_dedup enum url
  rw [hl, dedupFirst_cons]
  exact List.cons_ne_nil _ _

theorem guess_fullsize_variants_nodup (enum : List String → List String)
    (url : String) :
    (guess_fullsize_variants enum url).Nodup := by
  obtain ⟨l, hl⟩ := guess_fullsize_variants_eq_dedup enum url
  rw [hl]
  exact dedupFirst_nodup _

theorem extract_go_subset :
    ∀ (l : List ImageCandidate) (seen : List String) (c : ImageCandidate),
      c ∈ extract_image_candidates.go seen l → c ∈ l := by
  intro l
  induction l with
  | nil => intro seen c h; simp [extract_image_candidates.go] at h
  | cons a as ih =>
    intro seen c h
    rw [extract_image_candidates.go] at h
    split at h
    · exact List.mem_cons_of_mem a (ih _ c h)
    · rcases List.mem_cons.mp h with rfl | h
      · exact List.mem_cons_self c as
      · exact List.mem_cons_of_mem a (ih _ c h)

theorem imgCandidateOf_urls_ne_nil (enum : List String → List String)
    (page_url : String) (ip : Node × Option Node) (c : ImageCandidate)
    (h : imgCandidateOf enum page_url ip = some c) : c.urls ≠ [] := by
  unfold imgCandidateOf at h
  split at h
  · exact absurd h (by simp)
  · cases Option.some.inj h
    exact List.cons_ne_nil _ _

set_option maxHeartbeats 2000000 in
theorem anchorCandidateOf_urls_ne_nil (enum : List String → List String)
    (page_url : String) (ap : Node × Option Node) (c : ImageCandidate)
    (h : anchorCandidateOf enum page_url ap = some c) : c.urls ≠ [] := by
  unfold anchorCandidateOf at h
  split at h
  · exact absurd h (by simp)
  · split at h
    · exact absurd h (by simp)
    · split at h
      · exact absurd h (by simp)
      · split at h
        · exact absurd h (by simp)
        · injection h with h2
          have h3 := congrArg ImageCandidate.urls h2
          dsimp only at h3
          rw [← h3]
          exact guess_fullsize_variants_ne_nil enum _

theorem extract_candidate_urls_ne_nil (enum : List String → List String)
    (soup : List Node) (page_url : String) (c : ImageCandidate)
    (hc : c ∈ extract_image_candidates enum soup page_url) : c.urls ≠ [] := by
  unfold extract_image_candidates at hc
  have hc2 := extract_go_subset _ _ _ hc
  rcases List.mem_append.mp hc2 with h | h
  · obtain ⟨ip, -, hip⟩ := List.mem_filterMap.mp h
    exact imgCandidateOf_urls_ne_nil enum page_url ip c hip
  · obtain ⟨ap, -, hap⟩ := List.mem_filterMap.mp h
    exact anchorCandidateOf_urls_ne_nil enum page_url ap c hap

theorem dedupFirst_take_two {α : Type} [DecidableEq α] (x y : α) (l : List α)
    (hxy : y ≠ x) : (dedupFirst (x :: y :: l)).take 2 = [x, y] := by
  rw [dedupFirst, dedupFirst.go, if_neg (List.not_mem_nil x), dedupFirst.go,
    if_neg (by simp [hxy])]
  rfl

/-! ## Claim C10 -/

/-- C10: for every input URL the Variant Resolver returns a non-empty,
duplicate-free list whose first element is the input URL itself, and every
ImageCandidate the Candidate Extractor produces has a non-empty variant
list, so the first-element accesses used for page-level deduplication and the
crawl loop's seen-image check never fail. -/
theorem C10_variant_list_safety :
    (∀ (enum : List String → List String) (url : String),
      guess_fullsize_variants enum url ≠ [] ∧
      (guess_fullsize_variants enum url).head? = some url ∧
      (guess_fullsize_variants enum url).Nodup) ∧
    (∀ (enum : List String → List String) (soup : List Node) (page_url : String)
      (c : ImageCandidate),
      c ∈ extract_image_candidates enum soup page_url → c.urls ≠ []) :=
  ⟨fun enum url => ⟨guess_fullsize_variants_ne_nil enum url,
    guess_fullsize_variants_head enum url, guess_fullsize_variants_nodup enum url⟩,
   fun enum soup page_url c hc =>
     extract_candidate_urls_ne_nil enum soup page_url c hc⟩

/-- Witness for C10 at a concrete page: the single candidate extracted from
`page1` has a non-empty variant list. -/
theorem C10_variant_list_safety_witness :
    (ImageCandidate.mk "http://a.com/" ["http://b.com/pic.jpg"] false).urls ≠ [] :=
  C10_variant_list_safety.2 id page1 "http://a.com/"
    (ImageCandidate.mk "http://a.com/" ["http://b.com/pic.jpg"] false) (by decide)

/-! ## Claim C1 -/

/-- Counterexample to C1 as stated.  On
`http://a.com/thumb/x-small.jpg`, rule 1 (dropping the `/thumb/` segment)
rewrites the path to `/x-small.jpg` and rule 4 (stripping `-small`) rewrites
it to `/thumb/x.jpg`, as the middle conjunct shows.  The Python source holds
the rewritten paths in a set literal, whose iteration order is hash-seed
dependent; the reversed enumeration is a permutation of that set (first
conjunct), and under it the output lists the rule-4 variant before the rule-1
variant (last conjunct), so the claimed preservation of rule order fails. -/
theorem C1_rule_order_not_preserved :
    (List.reverse (pathVariantList "http://a.com/thumb/x-small.jpg")).Perm
      (pathVariantList "http://a.com/thumb/x-small.jpg") ∧
    pathRuleResults (urlparse "http://a.com/thumb/x-small.jpg" "").path =
      ["/x-small.jpg", "/thumb/x-small.jpg", "/thumb/x-small.jpg",
       "/thumb/x.jpg", "/thumb/x-small.jpg"] ∧
    guess_fullsize_variants List.reverse "http://a.com/thumb/x-small.jpg" =
      ["http://a.com/thumb/x-small.jpg", "http://a.com/thumb/x.jpg",
       "http://a.com/x-small.jpg"] :=
  ⟨by decide, by decide, by decide⟩

/-- C1 amended: for every admissible enumeration of the path-variant set,
the output starts with the original URL, removes duplicates (keeping first
occurrences), places the query-stripped variant second whenever stripping the
known thumbnail query keys changes the URL, contains one variant per
path-rewrite rule that changes the path — in an unspecified order among the
path-rewrite variants — and collapses to just the input when no rule
applies. -/
theorem C1_variant_resolver_amended (enum : List String → List String)
    (url : String)
    (h : (enum (pathVariantList url)).Perm (pathVariantList url)) :
    (guess_fullsize_variants enum url).head? = some url ∧
    (guess_fullsize_variants enum url).Nodup ∧
    (strip_thumbnail_query_params url ≠ url →
      (guess_fullsize_variants enum url).take 2 =
        [url, strip_thumbnail_query_params url]) ∧
    (∀ r ∈ pathRuleResults (urlparse url "").path,
      r ≠ "" → r ≠ (urlparse url "").path →
      urlunparse { urlparse url "" with path := r } ∈
        guess_fullsize_variants enum url) ∧
    ((strip_thumbnail_query_params url = url ∧
      ∀ r ∈ pathRuleResults (urlparse url "").path,
        r = "" ∨ r = (urlparse url "").path) →
      guess_fullsize_variants enum url = [url]) := by
  refine ⟨guess_fullsize_variants_head enum url,
    guess_fullsize_variants_nodup enum url, ?_, ?_, ?_⟩
  · intro h3
    simp only [guess_fullsize_variants]
    rw [if_pos h3]
    exact dedupFirst_take_two url (strip_thumbnail_query_params url) _ h3
  · intro r hr hne hnp
    simp only [guess_fullsize_variants]
    split
    · rw [mem_dedupFirst]
      refine List.mem_append_right _ (List.mem_map_of_mem _ ?_)
      refine List.mem_filter.mpr ⟨h.mem_iff.mpr ?_, by simp [hne, hnp]⟩
      rw [pathVariantList, mem_dedupFirst]
      exact hr
    · rw [mem_dedupFirst]
      refine List.mem_append_right _ (List.mem_map_of_mem _ ?_)
      refine List.mem_filter.mpr ⟨h.mem_iff.mpr ?_, by simp [hne, hnp]⟩
      rw [pathVariantList, mem_dedupFirst]
      exact hr
  · rintro ⟨hq, hall⟩
    simp only [guess_fullsize_variants]
    rw [if_neg (not_not_intro hq)]
    have hfil : (enum (pathVariantList url)).filter
        (fun p => ¬ (p = "" || p = (urlparse url "").path)) = [] := by
      rw [List.filter_eq_nil_iff]
      intro a ha
      have : a ∈ pathRuleResults (urlparse url "").path := by
        rw [← mem_dedupFirst, ← pathVariantList]
        exact h.mem_iff.mp ha
      rcases hall a this with h1 | h1 <;> simp [h1]
    rw [hfil]
    rfl

/-- Witness for the amended C1 at `http://a.com/thumb/x.jpg?w=1` with the
identity enumeration: the query-stripped variant sits in second position and
the rule-1 path variant is present. -/
theorem C1_variant_resolver_amended_witness :
    (guess_fullsize_variants id "http://a.com/thumb/x.jpg?w=1").take 2 =
      ["http://a.com/thumb/x.jpg?w=1",
       strip_thumbnail_query_params "http://a.com/thumb/x.jpg?w=1"] ∧
    urlunparse { urlparse "http://a.com/thumb/x.jpg?w=1" "" with
        path := "/x.jpg" } ∈
      guess_fullsize_variants id "http://a.com/thumb/x.jpg?w=1" :=
  ⟨(C1_variant_resolver_amended id "http://a.com/thumb/x.jpg?w=1"
      (List.Perm.refl _)).2.2.1 (by decide),
   (C1_variant_resolver_amended id "http://a.com/thumb/x.jpg?w=1"
      (List.Perm.refl _)).2.2.2.1 "/x.jpg" (by decide) (by decide) (by decide)⟩


/-! ## Claim C6 -/

theorem srcsetFold_char (base_url : String) :
    ∀ (chunks : List String) (accU : Option String) (accS : Int),
      (chunks.foldl (srcsetStep base_url) (accU, accS) = (accU, accS) ∧
        ∀ e ∈ chunks.filterMap (srcsetEntry base_url), e.2 ≤ accS) ∨
      (∃ u s pre post,
        chunks.filterMap (srcsetEntry base_url) = pre ++ (u, s) :: post ∧
        chunks.foldl (srcsetStep base_url) (accU, accS) = (some u, s) ∧
        accS < s ∧ (∀ e ∈ pre, e.2 < s) ∧ (∀ e ∈ post, e.2 ≤ s)) := by
  intro chunks
  induction chunks with
  | nil => intro accU accS; left; exact ⟨rfl, by simp⟩
  | cons c rest ih =>
    intro accU accS
    rw [List.foldl_cons]
    cases hc : srcsetEntry base_url c with
    | none =>
      rw [List.filterMap_cons_none hc]
      have hstep : srcsetStep base_url (accU, accS) c = (accU, accS) := by
        rw [srcsetStep, hc]
      rw [hstep]
      exact ih accU accS
    | some e =>
      obtain ⟨v, sc⟩ := e
      rw [List.filterMap_cons_some hc]
      by_cases hgt : sc > accS
      · have hstep : srcsetStep base_url (accU, accS) c = (some v, sc) := by
          rw [srcsetStep, hc]
          exact if_pos hgt
        rw [hstep]
        rcases ih (some v) sc with ⟨hres, hall⟩ | ⟨u, s, pre, post, hdec, hres, hlt, hpre, hpost⟩
        · right
          exact ⟨v, sc, [], rest.filterMap (srcsetEntry base_url),
            by simp, hres, hgt, by simp, hall⟩
        · right
          refine ⟨u, s, (v, sc) :: pre, post, by rw [hdec]; rfl, hres,
            lt_trans hgt hlt, ?_, hpost⟩
          intro e he
          rcases List.mem_cons.mp he with rfl | he
          · exact hlt
          · exact hpre e he
      · have hstep : srcsetStep base_url (accU, accS) c = (accU, accS) := by
          rw [srcsetStep, hc]
          exact if_neg hgt
        rw [hstep]
        rcases ih accU accS with ⟨hres, hall⟩ | ⟨u, s, pre, post, hdec, hres, hlt, hpre, hpost⟩
        · left
          refine ⟨hres, ?_⟩
          intro e he
          rcases List.mem_cons.mp he with rfl | he
          · exact le_of_not_lt hgt
          · exact hall e he
        · right
          refine ⟨u, s, (v, sc) :: pre, post, by rw [hdec]; rfl, hres, hlt, ?_,
            hpost⟩
          intro e he
          rcases List.mem_cons.mp he with rfl | he
          · exact lt_of_le_of_lt (le_of_not_lt hgt) hlt
          · exact hpre e he

theorem foldrMax_le (l : List (String × Int)) (c b : Int) (hb : b ≤ c)
    (h : ∀ e ∈ l, e.2 ≤ c) :
    l.foldr (fun e acc => max e.2 acc) b ≤ c := by
  induction l with
  | nil => exact hb
  | cons a t ih =>
    rw [List.foldr_cons]
    exact max_le (h a (List.mem_cons_self a t))
      (ih (fun e he => h e (List.mem_cons_of_mem a he)))

theorem le_foldrMax_of_mem (l : List (String × Int)) (b : Int)
    {e : String × Int} (he : e ∈ l) :
    e.2 ≤ l.foldr (fun e acc => max e.2 acc) b := by
  induction l with
  | nil => cases he
  | cons a t ih =>
    rw [List.foldr_cons]
    rcases List.mem_cons.mp he with rfl | he
    · exact le_max_left _ _
    · exact le_trans (ih he) (le_max_right _ _)

theorem find?_first_of_prefix_false (p : String × Int → Bool) :
    ∀ (pre : List (String × Int)) (u : String) (sc : Int)
      (post : List (String × Int)),
      (∀ e ∈ pre, p e = false) → p (u, sc) = true →
      (pre ++ (u, sc) :: post).find? p = some (u, sc) := by
  intro pre
  induction pre with
  | nil =>
    intro u sc post _ hp
    rw [List.nil_append, List.find?_cons_of_pos _ hp]
  | cons a t ih =>
    intro u sc post hall hp
    rw [List.cons_append, List.find?_cons_of_neg _ (by
      rw [hall a (List.mem_cons_self a t)]; exact Bool.false_ne_true)]
    exact ih u sc post (fun e he => hall e (List.mem_cons_of_mem a he)) hp

/-- C6 amended: `parse_srcset_best` returns the earliest entry of maximal
score provided that maximum exceeds -1 (the starting best score that only a
strictly greater score may replace), and nothing otherwise; `<N>w` scores
`int(N)`, `<N>x` scores `int(float(N) * 1000)`, and a bare URL or unparsable
descriptor scores 1. -/
theorem C6_srcset_best_amended (srcset base_url : String) :
    parse_srcset_best srcset base_url = srcsetAmendedSpec srcset base_url := by
  rw [parse_srcset_best, srcsetAmendedSpec]
  rcases srcsetFold_char base_url (splitCharStr ',' srcset) none (-1) with
    ⟨hres, hall⟩ | ⟨u, sc, pre, post, hdec, hres, hlt, hpre, hpost⟩
  · rw [hres]
    have hm : (srcsetEntries srcset base_url).foldr
        (fun e acc => max e.2 acc) (-1) ≤ -1 :=
      foldrMax_le _ _ _ le_rfl (by rw [srcsetEntries]; exact hall)
    rw [if_pos hm]
  · rw [hres]
    have h1 : ∀ e ∈ srcsetEntries srcset base_url, e.2 ≤ sc := by
      rw [srcsetEntries, hdec]
      intro e he
      rcases List.mem_append.mp he with he | he
      · exact le_of_lt (hpre e he)
      · rcases List.mem_cons.mp he with rfl | he
        · exact le_rfl
        · exact hpost e he
    have h2 : (u, sc) ∈ srcsetEntries srcset base_url := by
      rw [srcsetEntries, hdec]
      exact List.mem_append_right _ (List.mem_cons_self _ _)
    have hm : (srcsetEntries srcset base_url).foldr
        (fun e acc => max e.2 acc) (-1) = sc :=
      le_antisymm (foldrMax_le _ _ _ (le_of_lt hlt) h1)
        (le_foldrMax_of_mem _ _ h2)
    rw [hm, if_neg (not_le_of_lt hlt)]
    have hfind : (srcsetEntries srcset base_url).find?
        (fun e => e.2 == sc) = some (u, sc) := by
      rw [srcsetEntries, hdec]
      refine find?_first_of_prefix_false _ pre u sc post ?_ (by simp)
      intro e he
      simp only [beq_eq_false_iff_ne, ne_eq]
      exact ne_of_lt (hpre e he)
    rw [hfind]
    rfl

/-- Counterexample to C6 as stated: the srcset `a.jpg -1w` has exactly one
entry, scoring -1, so the claimed maximum-score selection (formalised by
`srcsetClaimBest`) chooses it, but `parse_srcset_best` returns nothing: a
score of -1 never strictly exceeds the starting best score of -1. -/
theorem C6_negative_descriptor_counterexample :
    srcsetEntries "a.jpg -1w" "http://e.com/" = [("http://e.com/a.jpg", -1)] ∧
    srcsetClaimBest "a.jpg -1w" "http://e.com/" = some "http://e.com/a.jpg" ∧
    parse_srcset_best "a.jpg -1w" "http://e.com/" = none :=
  ⟨by decide, by decide, by decide⟩


/-! ## Claim C7 -/

/-- Counterexample to C7 as stated: an anchor whose `title` attribute is
`more` — a marker of the fixed next-page set — with no text, no `rel`, and a
URL without a page-number pattern.  The claim classifies it as a pagination
link (second conjunct); `is_next_link` does not, because the source checks
the attribute string only against `next`, `pagination`, `pager`, `older`,
`newer`, consulting the full marker set for the visible text alone. -/
theorem C7_more_title_counterexample :
    isNextClaim (Node.elem "a" [("title", AttrVal.s "more")] [])
      "http://a.com/x" = true ∧
    is_next_link (Node.elem "a" [("title", AttrVal.s "more")] [])
      "http://a.com/x" = false :=
  ⟨by decide, by decide⟩

/-- C7 amended: a link is classified as a pagination (next) link iff its
`rel` contains `next`; or its visible text contains a marker of the fixed
next-page set; or the concatenation of its `class`/`id`/`aria-label`/`title`
attribute strings contains `next`, `pagination`, `pager`, `older` or `newer`;
or its URL matches the `page=`/`p=` numeric query pattern. -/
theorem C7_next_link_amended (tag : Node) (href : String) :
    is_next_link tag href = isNextAmendedSpec tag href := by
  by_cases h1 : strHas (relJoined tag) "next" <;>
    by_cases h2 : keyword_match (pyLower (getTextSep tag)) NEXT_TEXT_MARKERS <;>
    by_cases h3 : keyword_match (pyLower (joinWith " "
      [pyStrAttr (getAttr tag "class"), pyStrAttr (getAttr tag "id"),
       pyStrAttr (getAttr tag "aria-label"), pyStrAttr (getAttr tag "title")]))
      ["next", "pagination", "pager", "older", "newer"] <;>
    by_cases h4 : pageQueryPattern (pyLower href) <;>
    simp [is_next_link, isNextAmendedSpec, h1, h2, h3, h4]


/-! ## Claims C2 and C3: the Dedup & Fetch Resolver -/

theorem addFetch_status (r : DLResult) (u : String) :
    (r.addFetch u).status = r.status := rfl

theorem addFetch_seen (r : DLResult) (u : String) :
    (r.addFetch u).seen_hashes = r.seen_hashes := rfl

theorem addFetch_digest (r : DLResult) (u : String) :
    (r.addFetch u).digest = r.digest := rfl

theorem downloadGo_advance_step (w : World) (dir : String) (dry : Bool)
    (kws : List String) (u : String) (rest seen : List String)
    (hkw : keyword_match u kws = false)
    (hadv : variantAdvancesB w u = true) :
    downloadGo w false dir dry kws seen (u :: rest) =
      (downloadGo w false dir dry kws seen rest).addFetch u := by
  rw [downloadGo, if_neg (by simp [hkw]), if_neg (by simp)]
  rw [variantAdvancesB] at hadv
  split
  · rfl
  next resp hf =>
    rw [hf] at hadv
    dsimp only at hadv ⊢
    split
    · rfl
    next h1 =>
      split
      · rfl
      next h2 =>
        split
        · rfl
        next h3 =>
          split
          · rfl
          next h4 =>
            exfalso
            simp only [Bool.or_eq_true, decide_eq_true_eq] at hadv
            rcases hadv with ((h | h) | h) | h
            · exact h1 h
            · exact h2 (by simpa using h)
            · exact h3 h
            · exact h4 (by simpa using h)

theorem downloadGo_status_mem (w : World) (profile : Bool) (dir : String)
    (dry : Bool) (kws : List String) :
    ∀ (urls seen : List String),
      (downloadGo w profile dir dry kws seen urls).status ∈ outcomeValues := by
  intro urls
  induction urls with
  | nil => intro seen; simp [downloadGo, outcomeValues]
  | cons u rest ih =>
    intro seen
    rw [downloadGo]
    split
    · simp [outcomeValues]
    · split
      · simp [outcomeValues]
      · split
        · rw [addFetch_status]; exact ih seen
        · dsimp only
          split
          · rw [addFetch_status]; exact ih seen
          · split
            · rw [addFetch_status]; exact ih seen
            · split
              · rw [addFetch_status]; exact ih seen
              · split
                · rw [addFetch_status]; exact ih seen
                · split
                  · simp [outcomeValues]
                  · split
                    · simp [outcomeValues]
                    · simp [outcomeValues]

theorem downloadGo_fail_all (w : World) (dir : String) (dry : Bool)
    (kws : List String) :
    ∀ (urls seen : List String),
      (∀ u ∈ urls, keyword_match u kws = false ∧ variantAdvancesB w u = true) →
      (downloadGo w false dir dry kws seen urls).status =
        "failed_all_variants" := by
  intro urls
  induction urls with
  | nil => intro seen _; rfl
  | cons u rest ih =>
    intro seen hall
    obtain ⟨hkw, hadv⟩ := hall u (List.mem_cons_self u rest)
    rw [downloadGo_advance_step w dir dry kws u rest seen hkw hadv,
      addFetch_status]
    exact ih seen (fun v hv => hall v (List.mem_cons_of_mem u hv))

theorem downloadGo_seen_char (w : World) (profile : Bool) (dir : String)
    (dry : Bool) (kws : List String) :
    ∀ (urls seen : List String) (r : DLResult),
      r = downloadGo w profile dir dry kws seen urls →
      ((r.status = "downloaded" ∨ r.status = "would_download") →
        ∃ d, r.digest = some d ∧ r.seen_hashes = d :: seen ∧ d ∉ seen) ∧
      (¬ (r.status = "downloaded" ∨ r.status = "would_download") →
        r.seen_hashes = seen) := by
  intro urls
  induction urls with
  | nil =>
    intro seen r hr
    subst hr
    refine ⟨fun h => ?_, fun _ => rfl⟩
    rcases h with h | h <;> exact absurd h (by simp [downloadGo])
  | cons u rest ih =>
    intro seen r hr
    rw [downloadGo] at hr
    split at hr
    · subst hr
      exact ⟨fun h => by rcases h with h | h <;> simp at h, fun _ => rfl⟩
    · split at hr
      · subst hr
        exact ⟨fun h => by rcases h with h | h <;> simp at h, fun _ => rfl⟩
      · split at hr
        · subst hr
          simpa [addFetch_status, addFetch_seen, addFetch_digest] using
            ih seen _ rfl
        · dsimp only at hr
          split at hr
          · subst hr
            simpa [addFetch_status, addFetch_seen, addFetch_digest] using
              ih seen _ rfl
          · split at hr
            · subst hr
              simpa [addFetch_status, addFetch_seen, addFetch_digest] using
                ih seen _ rfl
            · split at hr
              · subst hr
                simpa [addFetch_status, addFetch_seen, addFetch_digest] using
                  ih seen _ rfl
              · split at hr
                · subst hr
                  simpa [addFetch_status, addFetch_seen, addFetch_digest] using
                    ih seen _ rfl
                · split at hr
                  · subst hr
                    exact ⟨fun h => by rcases h with h | h <;> simp at h,
                      fun _ => rfl⟩
                  · split at hr
                    · next hns _ =>
                        subst hr
                        exact ⟨fun _ => ⟨_, rfl, rfl, by simpa using hns⟩,
                          fun hn => absurd (Or.inr rfl) hn⟩
                    · next hns _ =>
                        subst hr
                        exact ⟨fun _ => ⟨_, rfl, rfl, by simpa using hns⟩,
                          fun hn => absurd (Or.inl rfl) hn⟩

theorem downloadGo_success_step (w : World) (dir : String) (dry : Bool)
    (kws : List String) (u : String) (resp : Resp) (body : List Nat)
    (rest seen : List String)
    (hkw : keyword_match u kws = false)
    (hf : w.fetch u = some resp)
    (hst : resp.status_code < 400)
    (hct : strHas (pyLower (resp.content_type.getD "")) "image" = true)
    (hb : resp.content = body) (hne : body ≠ [])
    (hsz : ¬ (body.length < 512 ∧ keyword_match u THUMB_HINTS = true)) :
    ((w.sha256hex body ∉ seen) →
      (downloadGo w false dir dry kws seen (u :: rest)).status =
        (if dry then "would_download" else "downloaded") ∧
      (downloadGo w false dir dry kws seen (u :: rest)).seen_hashes =
        w.sha256hex body :: seen ∧
      (downloadGo w false dir dry kws seen (u :: rest)).digest =
        some (w.sha256hex body)) ∧
    ((w.sha256hex body ∈ seen) →
      (downloadGo w false dir dry kws seen (u :: rest)).status = "duplicate" ∧
      (downloadGo w false dir dry kws seen (u :: rest)).seen_hashes = seen) := by
  rw [downloadGo, if_neg (by simp [hkw]), if_neg (by simp), hf]
  dsimp only
  have hszb : ¬ ((decide (body.length < 512) &&
      keyword_match u THUMB_HINTS) = true) := by
    simp only [Bool.and_eq_true, decide_eq_true_eq]
    exact fun hand => hsz ⟨hand.1, hand.2⟩
  rw [if_neg (not_le.mpr hst), if_neg (by simp [hct]), hb, if_neg hne,
    if_neg hszb]
  constructor
  · intro hnm
    rw [if_neg (by simpa using hnm)]
    cases dry
    · simp
    · simp
  · intro hm
    rw [if_pos (by simpa using hm)]
    exact ⟨rfl, rfl⟩

/-- C2: the Dedup & Fetch Resolver returns exactly one of the six outcomes,
trying the candidate's variant URLs in order: a variant URL matching a
user-supplied skip keyword returns `skipped_custom_keyword` at once with no
fetch, a profile-flagged candidate (with at least one variant, per the
ImageCandidate invariant) returns `skipped_profile` at once with no fetch,
an advancing variant (transport failure, HTTP status at least 400, non-image
response, empty body, or small body with a thumbnail-hint URL) reduces the
run to the remaining variants with only that URL added to the fetch trace,
and exhausting every variant yields `failed_all_variants`. -/
theorem C2_resolver_outcomes (w : World) (candidate : ImageCandidate)
    (output_dir : String) (seen : List String) (dry_run : Bool)
    (kws : List String) :
    (download_image w candidate output_dir seen dry_run kws).status ∈
      outcomeValues ∧
    (∀ u rest, candidate.urls = u :: rest → keyword_match u kws = true →
      download_image w candidate output_dir seen dry_run kws =
        ⟨"skipped_custom_keyword", none, none, none, seen, [], []⟩) ∧
    (∀ u rest, candidate.urls = u :: rest → keyword_match u kws = false →
      candidate.skip_profile = true →
      download_image w candidate output_dir seen dry_run kws =
        ⟨"skipped_profile", none, none, none, seen, [], []⟩) ∧
    (∀ u rest, candidate.urls = u :: rest → keyword_match u kws = false →
      candidate.skip_profile = false → variantAdvancesB w u = true →
      download_image w candidate output_dir seen dry_run kws =
        (download_image w { candidate with urls := rest } output_dir seen
          dry_run kws).addFetch u) ∧
    ((∀ u ∈ candidate.urls, keyword_match u kws = false ∧
        variantAdvancesB w u = true) →
      candidate.skip_profile = false →
      (download_image w candidate output_dir seen dry_run kws).status =
        "failed_all_variants") := by
  obtain ⟨pu, us, sp⟩ := candidate
  refine ⟨downloadGo_status_mem w sp output_dir dry_run kws us seen,
    ?_, ?_, ?_, ?_⟩
  · intro u rest hu hkw
    dsimp only at hu
    subst hu
    rw [download_image]
    dsimp only
    rw [downloadGo, if_pos (by simp [hkw])]
  · intro u rest hu hkw hsp
    dsimp only at hu hsp
    subst hu
    subst hsp
    rw [download_image]
    dsimp only
    rw [downloadGo, if_neg (by simp [hkw]), if_pos rfl]
  · intro u rest hu hkw hsp hadv
    dsimp only at hu hsp
    subst hu
    subst hsp
    rw [download_image, download_image]
    dsimp only
    exact downloadGo_advance_step w output_dir dry_run kws u rest seen hkw hadv
  · intro hall hsp
    dsimp only at hall hsp
    subst hsp
    rw [download_image]
    dsimp only
    exact downloadGo_fail_all w output_dir dry_run kws us seen hall

/-- Witness for C2 in the world `W3`: a keyword-matching first variant stops
at once with no fetch; a profile-flagged candidate stops at once with no
fetch; a 404 first variant advances to the rest of the list; a candidate
whose only variant fails ends in `failed_all_variants`. -/
theorem C2_resolver_outcomes_witness :
    download_image W3 ⟨"p", ["http://c.com/secret.png"], false⟩ "out" [] true
        ["secret"] =
      ⟨"skipped_custom_keyword", none, none, none, [], [], []⟩ ∧
    download_image W3 ⟨"p", ["http://c.com/i1.png"], true⟩ "out" [] true [] =
      ⟨"skipped_profile", none, none, none, [], [], []⟩ ∧
    download_image W3
        ⟨"p", ["http://c.com/bad.png", "http://c.com/i1.png"], false⟩
        "out" [] true [] =
      (download_image W3 ⟨"p", ["http://c.com/i1.png"], false⟩ "out" [] true
          []).addFetch "http://c.com/bad.png" ∧
    (download_image W3 ⟨"p", ["http://c.com/bad.png"], false⟩ "out" []
        true []).status = "failed_all_variants" :=
  ⟨(C2_resolver_outcomes W3 ⟨"p", ["http://c.com/secret.png"], false⟩ "out" []
      true ["secret"]).2.1 "http://c.com/secret.png" [] rfl (by decide),
   (C2_resolver_outcomes W3 ⟨"p", ["http://c.com/i1.png"], true⟩ "out" []
      true []).2.2.1 "http://c.com/i1.png" [] rfl (by decide) rfl,
   (C2_resolver_outcomes W3
      ⟨"p", ["http://c.com/bad.png", "http://c.com/i1.png"], false⟩ "out" []
      true []).2.2.2.1 "http://c.com/bad.png" ["http://c.com/i1.png"] rfl
      (by decide) rfl (by decide),
   (C2_resolver_outcomes W3 ⟨"p", ["http://c.com/bad.png"], false⟩ "out" []
      true []).2.2.2.2 (by decide) rfl⟩

/-- C3: the content digest is inserted into the seen-hash set exactly when
the outcome is `downloaded` or `would_download`, and running the resolver on
two single-variant candidates with different URLs but byte-identical image
bodies yields `downloaded` (`would_download` in dry-run) for the first and
`duplicate` for the second. -/
theorem C3_content_dedup (w : World) (dir : String) (dry : Bool)
    (kws : List String) :
    (∀ (candidate : ImageCandidate) (seen : List String) (r : DLResult),
      r = download_image w candidate dir seen dry kws →
      ((r.status = "downloaded" ∨ r.status = "would_download") →
        ∃ d, r.digest = some d ∧ r.seen_hashes = d :: seen ∧ d ∉ seen) ∧
      (¬ (r.status = "downloaded" ∨ r.status = "would_download") →
        r.seen_hashes = seen)) ∧
    (∀ (p1 p2 u1 u2 : String) (resp1 resp2 : Resp) (body : List Nat)
      (seen : List String),
      keyword_match u1 kws = false → keyword_match u2 kws = false →
      w.fetch u1 = some resp1 → w.fetch u2 = some resp2 →
      resp1.status_code < 400 → resp2.status_code < 400 →
      strHas (pyLower (resp1.content_type.getD "")) "image" = true →
      strHas (pyLower (resp2.content_type.getD "")) "image" = true →
      resp1.content = body → resp2.content = body → body ≠ [] →
      ¬ (body.length < 512 ∧ keyword_match u1 THUMB_HINTS = true) →
      ¬ (body.length < 512 ∧ keyword_match u2 THUMB_HINTS = true) →
      w.sha256hex body ∉ seen →
      (download_image w ⟨p1, [u1], false⟩ dir seen dry kws).status =
        (if dry then "would_download" else "downloaded") ∧
      (download_image w ⟨p1, [u1], false⟩ dir seen dry kws).seen_hashes =
        w.sha256hex body :: seen ∧
      (download_image w ⟨p2, [u2], false⟩ dir
        (download_image w ⟨p1, [u1], false⟩ dir seen dry kws).seen_hashes
        dry kws).status = "duplicate") := by
  constructor
  · intro candidate seen r hr
    exact downloadGo_seen_char w candidate.skip_profile dir dry kws
      candidate.urls seen r hr
  · intro p1 p2 u1 u2 resp1 resp2 body seen hkw1 hkw2 hf1 hf2 hst1 hst2 hct1
      hct2 hb1 hb2 hne hsz1 hsz2 hnm
    have s1 := (downloadGo_success_step w dir dry kws u1 resp1 body [] seen
      hkw1 hf1 hst1 hct1 hb1 hne hsz1).1 hnm
    have hseen1 : (download_image w ⟨p1, [u1], false⟩ dir seen dry kws).seen_hashes =
        w.sha256hex body :: seen := s1.2.1
    refine ⟨s1.1, hseen1, ?_⟩
    rw [hseen1]
    exact ((downloadGo_success_step w dir dry kws u2 resp2 body []
      (w.sha256hex body :: seen) hkw2 hf2 hst2 hct2 hb2 hne hsz2).2
      (List.mem_cons_self _ _)).1

/-- Witness for C3 in the world `W3`: the two URLs serve the identical
3-byte body; the first run (dry) yields `would_download` and inserts the
digest, the second yields `duplicate`. -/
theorem C3_content_dedup_witness :
    (download_image W3 ⟨"p1", ["http://c.com/i1.png"], false⟩ "out" [] true
        []).status = "would_download" ∧
    (download_image W3 ⟨"p1", ["http://c.com/i1.png"], false⟩ "out" [] true
        []).seen_hashes = [W3.sha256hex [7, 7, 7]] ∧
    (download_image W3 ⟨"p2", ["http://c.com/i2.png"], false⟩ "out"
        (download_image W3 ⟨"p1", ["http://c.com/i1.png"], false⟩ "out" []
          true []).seen_hashes true []).status = "duplicate" := by
  have h := (C3_content_dedup W3 "out" true []).2 "p1" "p2"
    "http://c.com/i1.png" "http://c.com/i2.png"
    ⟨200, some "image/png", [7, 7, 7], ""⟩
    ⟨200, some "image/png", [7, 7, 7], ""⟩ [7, 7, 7] []
    (by decide) (by decide) (by decide) (by decide) (by decide) (by decide)
    (by decide) (by decide) rfl rfl (by decide) (by decide) (by decide)
    (by decide)
  exact ⟨h.1, h.2.1, h.2.2⟩


/-! ## Crawl loop invariants -/

theorem contains_iff_mem (l : List String) (a : String) :
    l.contains a = true ↔ a ∈ l := by
  simp

theorem pageFetches_append (t1 t2 : List FetchEvent) :
    pageFetches (t1 ++ t2) = pageFetches t1 ++ pageFetches t2 := by
  induction t1 with
  | nil => rfl
  | cons e t ih =>
    cases e with
    | page u => rw [List.cons_append, pageFetches, pageFetches, ih]; rfl
    | image u => rw [List.cons_append, pageFetches, pageFetches, ih]

theorem pageFetches_map_image (l : List String) :
    pageFetches (l.map FetchEvent.image) = [] := by
  induction l with
  | nil => rfl
  | cons u t ih => rw [List.map_cons, pageFetches, ih]

theorem nodup_append_single {α : Type} (l : List α) (a : α)
    (h : l.Nodup) (ha : a ∉ l) : (l ++ [a]).Nodup := by
  rw [List.nodup_append]
  exact ⟨h, List.nodup_singleton a,
    fun x hx hxa => ha ((List.mem_singleton.mp hxa) ▸ hx)⟩

theorem popPhase_fields (w : World) (args : Args) (allowed : List String) :
    ∀ (q : List String) (st : CrawlState),
      (popPhase w args allowed q st).2.rows = st.rows ∧
      (popPhase w args allowed q st).2.seen_image_urls = st.seen_image_urls ∧
      (popPhase w args allowed q st).2.seen_hashes = st.seen_hashes ∧
      (popPhase w args allowed q st).2.resolver_calls = st.resolver_calls ∧
      (popPhase w args allowed q st).2.total_pages = st.total_pages := by
  intro q
  induction q with
  | nil => intro st; exact ⟨rfl, rfl, rfl, rfl, rfl⟩
  | cons u rest ih =>
    intro st
    rw [popPhase]
    split
    · exact ih st
    · split
      · exact ih _
      · split
        · exact ih _
        · split
          · exact ih _
          · exact ⟨rfl, rfl, rfl, rfl, rfl⟩

theorem popPhase_visited_mono (w : World) (args : Args) (allowed : List String) :
    ∀ (q : List String) (st : CrawlState) (v : String),
      v ∈ st.visited → v ∈ (popPhase w args allowed q st).2.visited := by
  intro q
  induction q with
  | nil => intro st v hv; exact hv
  | cons u rest ih =>
    intro st v hv
    rw [popPhase]
    split
    · exact ih st v hv
    · split
      · exact ih _ v (List.mem_cons_of_mem u hv)
      · split
        · exact ih _ v (List.mem_cons_of_mem u hv)
        · split
          · exact ih _ v (List.mem_cons_of_mem u hv)
          · exact List.mem_cons_of_mem u hv

theorem popPhase_inv5 (w : World) (args : Args) (allowed : List String) :
    ∀ (q : List String) (st : CrawlState),
      (pageFetches st.trace).Nodup →
      (∀ v ∈ pageFetches st.trace, v ∈ st.visited) →
      (pageFetches (popPhase w args allowed q st).2.trace).Nodup ∧
      (∀ v ∈ pageFetches (popPhase w args allowed q st).2.trace,
        v ∈ (popPhase w args allowed q st).2.visited) := by
  intro q
  induction q with
  | nil => intro st h1 h2; exact ⟨h1, h2⟩
  | cons u rest ih =>
    intro st h1 h2
    rw [popPhase]
    split
    · exact ih st h1 h2
    next hu =>
      have hunv : u ∉ st.visited := fun hm =>
        hu ((contains_iff_mem st.visited u).mpr hm)
      have hpages : ∀ v ∈ pageFetches st.trace, v ∈ u :: st.visited :=
        fun v hv => List.mem_cons_of_mem u (h2 v hv)
      split
      · exact ih _ h1 hpages
      · have hnotin : u ∉ pageFetches st.trace := fun hm => hunv (h2 u hm)
        have htr : pageFetches (st.trace ++ [FetchEvent.page u]) =
            pageFetches st.trace ++ [u] := by
          rw [pageFetches_append]; rfl
        have h1b : (pageFetches (st.trace ++ [FetchEvent.page u])).Nodup := by
          rw [htr]; exact nodup_append_single _ _ h1 hnotin
        have h2b : ∀ v ∈ pageFetches (st.trace ++ [FetchEvent.page u]),
            v ∈ u :: st.visited := by
          rw [htr]
          intro v hv
          rcases List.mem_append.mp hv with hv | hv
          · exact List.mem_cons_of_mem u (h2 v hv)
          · rcases List.mem_singleton.mp hv with rfl
            exact List.mem_cons_self _ _
        split
        · exact ih _ h1b h2b
        · split
          · exact ih _ h1b h2b
          · exact ⟨h1b, h2b⟩

theorem popPhase_inv4 (w : World) (args : Args) (allowed : List String)
    (hca : args.allow_cross_domain = false) :
    ∀ (q : List String) (st : CrawlState),
      (∀ v ∈ pageFetches st.trace, host_of v ∈ allowed) →
      ∀ v ∈ pageFetches (popPhase w args allowed q st).2.trace,
        host_of v ∈ allowed := by
  intro q
  induction q with
  | nil => intro st h; exact h
  | cons u rest ih =>
    intro st h
    rw [popPhase]
    split
    · exact ih st h
    · split
      · exact ih _ h
      next hhost =>
        have hmem : host_of u ∈ allowed := by
          rw [hca] at hhost
          by_cases hc : allowed.contains (host_of u) = true
          · exact (contains_iff_mem allowed (host_of u)).mp hc
          · have hnm : host_of u ∉ allowed :=
              fun hm => hc ((contains_iff_mem _ _).mpr hm)
            exact absurd (by simp [hnm]) hhost
        have hb : ∀ v ∈ pageFetches (st.trace ++ [FetchEvent.page u]),
            host_of v ∈ allowed := by
          rw [pageFetches_append]
          intro v hv
          rcases List.mem_append.mp hv with hv | hv
          · exact h v hv
          · rcases List.mem_singleton.mp hv with rfl
            exact hmem
        split
        · exact ih _ hb
        · split
          · exact ih _ hb
          · exact hb


theorem processCandidates_fields (w : World) (args : Args)
    (page_url dir : String) (kws : List String) :
    ∀ (cands : List ImageCandidate) (st : CrawlState),
      (processCandidates w args page_url dir kws cands st).visited =
        st.visited ∧
      pageFetches (processCandidates w args page_url dir kws cands st).trace =
        pageFetches st.trace ∧
      (processCandidates w args page_url dir kws cands st).total_pages =
        st.total_pages := by
  intro cands
  induction cands with
  | nil => intro st; exact ⟨rfl, rfl, rfl⟩
  | cons c cs ih =>
    intro st
    rw [processCandidates]
    split
    · exact ih st
    · refine ⟨(ih _).1, ?_, (ih _).2.2⟩
      rw [(ih _).2.1]
      rw [pageFetches_append, pageFetches_map_image, List.append_nil]

theorem processCandidates_inv9 (w : World) (args : Args)
    (page_url dir : String) (kws : List String) :
    ∀ (cands : List ImageCandidate) (st : CrawlState),
      ((st.rows.map Row.image_url).Nodup ∧
        st.resolver_calls = st.rows.length ∧
        ∀ r ∈ st.rows, r.image_url ∈ st.seen_image_urls) →
      ((processCandidates w args page_url dir kws cands st).rows.map
          Row.image_url).Nodup ∧
      (processCandidates w args page_url dir kws cands st).resolver_calls =
        (processCandidates w args page_url dir kws cands st).rows.length ∧
      ∀ r ∈ (processCandidates w args page_url dir kws cands st).rows,
        r.image_url ∈
          (processCandidates w args page_url dir kws cands st).seen_image_urls := by
  intro cands
  induction cands with
  | nil => intro st h; exact h
  | cons c cs ih =>
    intro st h
    obtain ⟨h1, h2, h3⟩ := h
    rw [processCandidates]
    split
    · exact ih st ⟨h1, h2, h3⟩
    next hseen =>
      apply ih
      have hnm : c.urls.headD "" ∉ st.seen_image_urls := fun hm =>
        hseen ((contains_iff_mem _ _).mpr hm)
      refine ⟨?_, ?_, ?_⟩
      · rw [List.map_append]
        refine nodup_append_single _ _ h1 ?_
        intro hm
        obtain ⟨r, hr, hre⟩ := List.mem_map.mp hm
        have hre2 : r.image_url = c.urls.headD "" := hre
        exact hnm (hre2 ▸ h3 r hr)
      · rw [List.length_append, h2]
        rfl
      · intro r hr
        rcases List.mem_append.mp hr with hr | hr
        · exact List.mem_cons_of_mem _ (h3 r hr)
        · rcases List.mem_singleton.mp hr with rfl
          exact List.mem_cons_self _ _

theorem pagesLoop_inv5 (w : World) (args : Args)
    (allowed kws : List String) (fcl : Bool)
    (enum : List String → List String) :
    ∀ (budget : Nat) (q : List String) (st : CrawlState),
      (pageFetches st.trace).Nodup →
      (∀ v ∈ pageFetches st.trace, v ∈ st.visited) →
      (pageFetches (pagesLoop w args allowed kws fcl enum budget q st).trace).Nodup := by
  intro budget
  induction budget with
  | zero => intro q st h1 _; exact h1
  | succ b ih =>
    intro q st h1 h2
    rw [pagesLoop]
    rcases hpop : popPhase w args allowed q st with ⟨res, st2⟩
    have hinv := popPhase_inv5 w args allowed q st h1 h2
    rw [hpop] at hinv
    cases res with
    | none => exact hinv.1
    | some pr =>
      obtain ⟨page_url, resp, rest⟩ := pr
      dsimp only
      have hfields := processCandidates_fields w args page_url
        (args.output ++ "/" ++ sanitize_name (host_of page_url) ++ "/images")
        kws (extract_image_candidates enum (w.parseHtml resp.text) page_url)
        { st2 with total_pages := st2.total_pages + 1 }
      refine ih _ _ ?_ ?_
      · rw [hfields.2.1]
        exact hinv.1
      · rw [hfields.2.1, hfields.1]
        exact hinv.2

theorem pagesLoop_inv4 (w : World) (args : Args)
    (allowed kws : List String) (fcl : Bool)
    (enum : List String → List String)
    (hca : args.allow_cross_domain = false) :
    ∀ (budget : Nat) (q : List String) (st : CrawlState),
      (∀ v ∈ pageFetches st.trace, host_of v ∈ allowed) →
      ∀ v ∈ pageFetches (pagesLoop w args allowed kws fcl enum budget q st).trace,
        host_of v ∈ allowed := by
  intro budget
  induction budget with
  | zero => intro q st h; exact h
  | succ b ih =>
    intro q st h
    rw [pagesLoop]
    rcases hpop : popPhase w args allowed q st with ⟨res, st2⟩
    have hinv := popPhase_inv4 w args allowed hca q st h
    rw [hpop] at hinv
    cases res with
    | none => exact hinv
    | some pr =>
      obtain ⟨page_url, resp, rest⟩ := pr
      dsimp only
      have hfields := processCandidates_fields w args page_url
        (args.output ++ "/" ++ sanitize_name (host_of page_url) ++ "/images")
        kws (extract_image_candidates enum (w.parseHtml resp.text) page_url)
        { st2 with total_pages := st2.total_pages + 1 }
      apply ih
      rw [hfields.2.1]
      exact hinv

theorem pagesLoop_inv9 (w : World) (args : Args)
    (allowed kws : List String) (fcl : Bool)
    (enum : List String → List String) :
    ∀ (budget : Nat) (q : List String) (st : CrawlState),
      ((st.rows.map Row.image_url).Nodup ∧
        st.resolver_calls = st.rows.length ∧
        ∀ r ∈ st.rows, r.image_url ∈ st.seen_image_urls) →
      ((pagesLoop w args allowed kws fcl enum budget q st).rows.map
          Row.image_url).Nodup ∧
      (pagesLoop w args allowed kws fcl enum budget q st).resolver_calls =
        (pagesLoop w args allowed kws fcl enum budget q st).rows.length := by
  intro budget
  induction budget with
  | zero => intro q st h; exact ⟨h.1, h.2.1⟩
  | succ b ih =>
    intro q st h
    rw [pagesLoop]
    rcases hpop : popPhase w args allowed q st with ⟨res, st2⟩
    have hf := popPhase_fields w args allowed q st
    rw [hpop] at hf
    have hinv2 : (st2.rows.map Row.image_url).Nodup ∧
        st2.resolver_calls = st2.rows.length ∧
        ∀ r ∈ st2.rows, r.image_url ∈ st2.seen_image_urls := by
      rw [hf.1, hf.2.1, hf.2.2.2.1]
      exact h
    cases res with
    | none => exact ⟨hinv2.1, hinv2.2.1⟩
    | some pr =>
      obtain ⟨page_url, resp, rest⟩ := pr
      dsimp only
      apply ih
      exact processCandidates_inv9 w args page_url
        (args.output ++ "/" ++ sanitize_name (host_of page_url) ++ "/images")
        kws (extract_image_candidates enum (w.parseHtml resp.text) page_url)
        { st2 with total_pages := st2.total_pages + 1 } hinv2


/-! ## Claim C4 -/

/-- Counterexample to C4 as stated.  In the world `W1`, cross-domain mode is
disabled and the allowlist derived from the start URLs is `["a.com"]`, yet
the crawl issues an image fetch to `http://b.com/pic.jpg`, whose host is
outside the allowlist: `download_image` fetches candidate variant URLs
without any host check. -/
theorem C4_image_fetch_counterexample :
    args1.allow_cross_domain = false ∧
    (crawl_and_download W1 args1 id).allowed_hosts = ["a.com"] ∧
    FetchEvent.image "http://b.com/pic.jpg" ∈
      (crawl_and_download W1 args1 id).state.trace ∧
    host_of "http://b.com/pic.jpg" ∉ (crawl_and_download W1 args1 id).allowed_hosts :=
  ⟨rfl, by decide, by decide, by decide⟩

/-- C4 amended: when cross-domain mode is disabled, no page is ever fetched
whose host is outside the allowlist derived from the start URLs — popped
out-of-allowlist pages are marked visited and skipped without fetching.
Image-variant fetches issued by the Dedup & Fetch Resolver are not
host-restricted. -/
theorem C4_page_fetch_allowlist (w : World) (args : Args)
    (enum : List String → List String)
    (hca : args.allow_cross_domain = false) :
    ∀ u ∈ pageFetches (crawl_and_download w args enum).state.trace,
      host_of u ∈ (crawl_and_download w args enum).allowed_hosts := by
  rw [crawl_and_download]
  split
  · intro u hu
    exact absurd hu (by simp [emptyState, pageFetches])
  · exact pagesLoop_inv4 w args _ _ _ enum hca args.max_pages _ emptyState
      (fun v hv => absurd hv (by simp [emptyState, pageFetches]))

/-- Witness for the amended C4: in `W1` the only page fetch is the start
page, whose host is in the allowlist. -/
theorem C4_page_fetch_allowlist_witness :
    host_of "http://a.com/" ∈ (crawl_and_download W1 args1 id).allowed_hosts :=
  C4_page_fetch_allowlist W1 args1 id rfl "http://a.com/" (by decide)

/-! ## Claim C5 -/

/-- C5: no page URL is ever fetched twice — the page-fetch trace of any
crawl is duplicate-free (the visited-set membership check precedes both
enqueueing and dequeue-processing) — and concretely, a crawl seeded with one
page containing a `rel=next` link to itself terminates after fetching that
single page once. -/
theorem C5_no_page_fetched_twice :
    (∀ (w : World) (args : Args) (enum : List String → List String),
      (pageFetches (crawl_and_download w args enum).state.trace).Nodup) ∧
    pageFetches (crawl_and_download WSelf argsSelf id).state.trace =
      ["http://s.com/"] := by
  constructor
  · intro w args enum
    rw [crawl_and_download]
    split
    · simp [emptyState, pageFetches]
    · exact pagesLoop_inv5 w args _ _ _ enum args.max_pages _ emptyState
        (by simp [emptyState, pageFetches])
        (fun v hv => absurd hv (by simp [emptyState, pageFetches]))
  · decide

/-! ## Claim C9 -/

/-- C9: only the first candidate per distinct first-preference URL produces
an outcome and a manifest row: the chosen-URL column of the manifest is
duplicate-free across the whole crawl (same or earlier pages), and the
number of Dedup & Fetch Resolver invocations equals the number of manifest
rows, so a candidate with an already-seen first URL neither invokes the
resolver nor appends a row. -/
theorem C9_first_url_dedup (w : World) (args : Args)
    (enum : List String → List String) :
    ((crawl_and_download w args enum).state.rows.map Row.image_url).Nodup ∧
    (crawl_and_download w args enum).state.resolver_calls =
      (crawl_and_download w args enum).state.rows.length := by
  rw [crawl_and_download]
  split
  · simp [emptyState]
  · exact pagesLoop_inv9 w args _ _ _ enum args.max_pages _ emptyState
      ⟨by simp [emptyState], by simp [emptyState], by simp [emptyState]⟩


/-! ## Claim C8: enum-independence of the manifest skeleton -/

theorem dedupFirst_head {α : Type} [DecidableEq α] (l : List α) :
    (dedupFirst l).head? = l.head? := by
  cases l with
  | nil => rfl
  | cons x xs => rw [dedupFirst_cons]; rfl

theorem headD_eq_of_head? {l : List String} {x : String}
    (h : l.head? = some x) : l.headD "" = x := by
  cases l with
  | nil => simp at h
  | cons a t => simpa using h

theorem flatMap_perm (g1 g2 : String → List String)
    (h : ∀ u, (g1 u).Perm (g2 u)) :
    ∀ l : List String, (l.flatMap g1).Perm (l.flatMap g2) := by
  intro l
  induction l with
  | nil => exact List.Perm.refl _
  | cons u us ih =>
    rw [List.flatMap_cons, List.flatMap_cons]
    exact List.Perm.append (h u) ih

theorem flatMap_head_eq (g1 g2 : String → List String)
    (hne : ∀ u, g1 u ≠ []) (hh : ∀ u, (g1 u).head? = (g2 u).head?) :
    ∀ l : List String, (l.flatMap g1).head? = (l.flatMap g2).head? := by
  intro l
  cases l with
  | nil => rfl
  | cons u us =>
    rw [List.flatMap_cons, List.flatMap_cons]
    cases hg1 : g1 u with
    | nil => exact absurd hg1 (hne u)
    | cons a t =>
      have hg2h := hh u
      rw [hg1] at hg2h
      cases hg2 : g2 u with
      | nil => rw [hg2] at hg2h; simp at hg2h
      | cons b t2 =>
        rw [hg2] at hg2h
        rw [List.cons_append, List.cons_append]
        simpa using hg2h

theorem guess_perm (enum1 enum2 : List String → List String)
    (h1 : ∀ l, (enum1 l).Perm l) (h2 : ∀ l, (enum2 l).Perm l) (url : String) :
    (guess_fullsize_variants enum1 url).Perm
      (guess_fullsize_variants enum2 url) := by
  have hp : (enum1 (pathVariantList url)).Perm (enum2 (pathVariantList url)) :=
    (h1 _).trans (h2 _).symm
  simp only [guess_fullsize_variants]
  by_cases hq : strip_thumbnail_query_params url ≠ url
  · simp only [if_pos hq]
    exact dedupFirst_perm (List.Perm.append_left _ ((hp.filter _).map _))
  · simp only [if_neg hq]
    exact dedupFirst_perm (List.Perm.append_left _ ((hp.filter _).map _))

theorem guess_head_eq (enum1 enum2 : List String → List String) (url : String) :
    (guess_fullsize_variants enum1 url).head? =
      (guess_fullsize_variants enum2 url).head? := by
  rw [guess_fullsize_variants_head, guess_fullsize_variants_head]

theorem imgCandidateOf_rel (enum1 enum2 : List String → List String)
    (h1 : ∀ l, (enum1 l).Perm l) (h2 : ∀ l, (enum2 l).Perm l)
    (p : String) (ip : Node × Option Node) :
    (imgCandidateOf enum1 p ip = none ∧ imgCandidateOf enum2 p ip = none) ∨
    (∃ c1 c2, imgCandidateOf enum1 p ip = some c1 ∧
      imgCandidateOf enum2 p ip = some c2 ∧ candRel c1 c2) := by
  have hperm : (dedupFirst ((collectImgUrls p ip).flatMap
      (guess_fullsize_variants enum1))).Perm
      (dedupFirst ((collectImgUrls p ip).flatMap
        (guess_fullsize_variants enum2))) :=
    dedupFirst_perm (flatMap_perm _ _ (guess_perm enum1 enum2 h1 h2) _)
  have hhead : (dedupFirst ((collectImgUrls p ip).flatMap
      (guess_fullsize_variants enum1))).head? =
      (dedupFirst ((collectImgUrls p ip).flatMap
        (guess_fullsize_variants enum2))).head? := by
    rw [dedupFirst_head, dedupFirst_head]
    exact flatMap_head_eq _ _ (guess_fullsize_variants_ne_nil enum1)
      (guess_head_eq enum1 enum2) _
  rw [imgCandidateOf, imgCandidateOf]
  generalize hA : dedupFirst ((collectImgUrls p ip).flatMap
    (guess_fullsize_variants enum1)) = L1 at hperm hhead
  generalize hB : dedupFirst ((collectImgUrls p ip).flatMap
    (guess_fullsize_variants enum2)) = L2 at hperm hhead
  cases L1 with
  | nil =>
    have : L2 = [] := (hperm.symm).eq_nil
    subst this
    exact Or.inl ⟨rfl, rfl⟩
  | cons f1 r1 =>
    cases L2 with
    | nil => cases hperm.eq_nil
    | cons f2 r2 =>
      right
      have hf : f1 = f2 := by simpa using hhead
      refine ⟨_, _, rfl, rfl, ?_, ?_⟩
      · simpa using hf
      · exact hperm.length_eq

theorem candRel_mk (p1 p2 : String) (l1 l2 : List String) (b1 b2 : Bool)
    (hh : l1.head? = l2.head?) (hl : l1.length = l2.length) :
    candRel ⟨p1, l1, b1⟩ ⟨p2, l2, b2⟩ := by
  refine ⟨?_, hl⟩
  show l1.headD "" = l2.headD ""
  cases l1 with
  | nil =>
    cases l2 with
    | nil => rfl
    | cons b t2 => simp at hh
  | cons a t1 =>
    cases l2 with
    | nil => simp at hh
    | cons b t2 => simpa using hh

theorem anchorCandidateOf_rel (enum1 enum2 : List String → List String)
    (h1 : ∀ l, (enum1 l).Perm l) (h2 : ∀ l, (enum2 l).Perm l)
    (p : String) (ap : Node × Option Node) :
    (anchorCandidateOf enum1 p ap = none ∧ anchorCandidateOf enum2 p ap = none) ∨
    (∃ c1 c2, anchorCandidateOf enum1 p ap = some c1 ∧
      anchorCandidateOf enum2 p ap = some c2 ∧ candRel c1 c2) := by
  rw [anchorCandidateOf, anchorCandidateOf]
  by_cases ht : ¬ attrTruthy (getAttr ap.1 "href")
  · simp only [if_pos ht]
    exact Or.inl ⟨by simp, by simp⟩
  · simp only [if_neg ht]
    cases hn : normalize_url (pyStrAttr (getAttr ap.1 "href")) p with
    | none => exact Or.inl ⟨by simp, by simp⟩
    | some normalized =>
      by_cases hi : ¬ looks_like_image_url normalized
      · simp only [if_pos hi]
        exact Or.inl ⟨by simp, by simp⟩
      · simp only [if_neg hi]
        by_cases hk : keyword_match normalized PROFILE_MARKERS
        · simp only [if_pos hk]
          exact Or.inl ⟨by simp, by simp⟩
        · simp only [if_neg hk]
          exact Or.inr ⟨⟨p, guess_fullsize_variants enum1 normalized, false⟩,
            ⟨p, guess_fullsize_variants enum2 normalized, false⟩, rfl, rfl,
            candRel_mk p p _ _ false false (guess_head_eq enum1 enum2 normalized)
              (guess_perm enum1 enum2 h1 h2 normalized).length_eq⟩

theorem filterMap_rel {α β : Type} (f g : α → Option β) (R : β → β → Prop)
    (h : ∀ a, (f a = none ∧ g a = none) ∨
      ∃ b1 b2, f a = some b1 ∧ g a = some b2 ∧ R b1 b2) :
    ∀ l : List α, List.Forall₂ R (l.filterMap f) (l.filterMap g) := by
  intro l
  induction l with
  | nil => exact List.Forall₂.nil
  | cons a t ih =>
    rcases h a with ⟨hf, hg⟩ | ⟨b1, b2, hf, hg, hR⟩
    · rw [List.filterMap_cons_none hf, List.filterMap_cons_none hg]
      exact ih
    · rw [List.filterMap_cons_some hf, List.filterMap_cons_some hg]
      exact List.Forall₂.cons hR ih

theorem extract_go_rel :
    ∀ {l1 l2 : List ImageCandidate}, List.Forall₂ candRel l1 l2 →
    ∀ seen : List String,
      List.Forall₂ candRel (extract_image_candidates.go seen l1)
        (extract_image_candidates.go seen l2) := by
  intro l1 l2 hF
  induction hF with
  | nil => intro seen; exact List.Forall₂.nil
  | @cons a b t1 t2 hR hF ih =>
    intro seen
    rw [extract_image_candidates.go, extract_image_candidates.go]
    rw [← hR.1]
    by_cases hk : a.urls.headD "" ∈ seen
    · rw [if_pos hk, if_pos hk]
      exact ih seen
    · rw [if_neg hk, if_neg hk]
      exact List.Forall₂.cons hR (ih _)

theorem extract_image_candidates_rel (enum1 enum2 : List String → List String)
    (h1 : ∀ l, (enum1 l).Perm l) (h2 : ∀ l, (enum2 l).Perm l)
    (soup : List Node) (page_url : String) :
    List.Forall₂ candRel (extract_image_candidates enum1 soup page_url)
      (extract_image_candidates enum2 soup page_url) := by
  rw [extract_image_candidates, extract_image_candidates,
    extract_image_candidates.dedupByFirst, extract_image_candidates.dedupByFirst]
  apply extract_go_rel
  exact List.rel_append
    (filterMap_rel _ _ candRel
      (imgCandidateOf_rel enum1 enum2 h1 h2 page_url) _)
    (filterMap_rel _ _ candRel
      (anchorCandidateOf_rel enum1 enum2 h1 h2 page_url) _)


theorem processCandidates_rel (w : World) (args : Args)
    (page_url dir : String) (kws : List String) :
    ∀ {cands1 cands2 : List ImageCandidate}, List.Forall₂ candRel cands1 cands2 →
    ∀ (st1 st2 : CrawlState),
      st1.seen_image_urls = st2.seen_image_urls →
      st1.visited = st2.visited →
      st1.total_pages = st2.total_pages →
      pageFetches st1.trace = pageFetches st2.trace →
      st1.rows.map rowKey = st2.rows.map rowKey →
      (processCandidates w args page_url dir kws cands1 st1).seen_image_urls =
        (processCandidates w args page_url dir kws cands2 st2).seen_image_urls ∧
      (processCandidates w args page_url dir kws cands1 st1).visited =
        (processCandidates w args page_url dir kws cands2 st2).visited ∧
      (processCandidates w args page_url dir kws cands1 st1).total_pages =
        (processCandidates w args page_url dir kws cands2 st2).total_pages ∧
      pageFetches (processCandidates w args page_url dir kws cands1 st1).trace =
        pageFetches (processCandidates w args page_url dir kws cands2 st2).trace ∧
      (processCandidates w args page_url dir kws cands1 st1).rows.map rowKey =
        (processCandidates w args page_url dir kws cands2 st2).rows.map rowKey := by
  intro cands1 cands2 hF
  induction hF with
  | nil =>
    intro st1 st2 e1 e2 e3 e4 e5
    exact ⟨e1, e2, e3, e4, e5⟩
  | @cons a b t1 t2 hR hF ih =>
    intro st1 st2 e1 e2 e3 e4 e5
    rw [processCandidates, processCandidates]
    by_cases hk : st1.seen_image_urls.contains (a.urls.headD "") = true
    · rw [if_pos hk, if_pos (by rw [← e1, ← hR.1]; exact hk)]
      exact ih st1 st2 e1 e2 e3 e4 e5
    · rw [if_neg hk, if_neg (by rw [← e1, ← hR.1]; exact hk)]
      apply ih
      · show a.urls.headD "" :: st1.seen_image_urls =
          b.urls.headD "" :: st2.seen_image_urls
        rw [e1, hR.1]
      · exact e2
      · exact e3
      · show pageFetches (st1.trace ++ _) = pageFetches (st2.trace ++ _)
        rw [pageFetches_append, pageFetches_append, pageFetches_map_image,
          pageFetches_map_image, List.append_nil, List.append_nil]
        exact e4
      · show (st1.rows ++ [_]).map rowKey = (st2.rows ++ [_]).map rowKey
        rw [List.map_append, List.map_append, e5]
        congr 1
        show [(page_url, a.urls.headD "", a.urls.length)] =
          [(page_url, b.urls.headD "", b.urls.length)]
        rw [hR.1, hR.2]

theorem popPhase_rel (w : World) (args : Args) (allowed : List String) :
    ∀ (q : List String) (st1 st2 : CrawlState),
      st1.visited = st2.visited →
      pageFetches st1.trace = pageFetches st2.trace →
      (popPhase w args allowed q st1).1 = (popPhase w args allowed q st2).1 ∧
      (popPhase w args allowed q st1).2.visited =
        (popPhase w args allowed q st2).2.visited ∧
      pageFetches (popPhase w args allowed q st1).2.trace =
        pageFetches (popPhase w args allowed q st2).2.trace := by
  intro q
  induction q with
  | nil => intro st1 st2 e1 e2; exact ⟨rfl, e1, e2⟩
  | cons u rest ih =>
    intro st1 st2 e1 e2
    rw [popPhase, popPhase]
    by_cases hv : st1.visited.contains u = true
    · have hv2 : st2.visited.contains u = true := by rw [← e1]; exact hv
      rw [if_pos hv, if_pos hv2]
      exact ih st1 st2 e1 e2
    · have hv2 : ¬ st2.visited.contains u = true := by rw [← e1]; exact hv
      rw [if_neg hv, if_neg hv2]
      by_cases hh : (¬ args.allow_cross_domain &&
          ¬ allowed.contains (host_of u)) = true
      · simp only [if_pos hh]
        apply ih
        · show u :: st1.visited = u :: st2.visited
          rw [e1]
        · exact e2
      · simp only [if_neg hh]
        have e2b : pageFetches (st1.trace ++ [FetchEvent.page u]) =
            pageFetches (st2.trace ++ [FetchEvent.page u]) := by
          rw [pageFetches_append, pageFetches_append, e2]
        cases hf : w.fetch u with
        | none =>
          apply ih
          · show u :: st1.visited = u :: st2.visited
            rw [e1]
          · exact e2b
        | some resp =>
          by_cases hbad : (decide (resp.status_code ≥ 400) ||
              decide ¬ is_html_response resp = true) = true
          · simp only [if_pos hbad]
            apply ih
            · show u :: st1.visited = u :: st2.visited
              rw [e1]
            · exact e2b
          · simp only [if_neg hbad]
            refine ⟨trivial, ?_, e2b⟩
            show u :: st1.visited = u :: st2.visited
            rw [e1]

theorem pagesLoop_rel (w : World) (args : Args) (allowed kws : List String)
    (fcl : Bool) (enum1 enum2 : List String → List String)
    (h1 : ∀ l, (enum1 l).Perm l) (h2 : ∀ l, (enum2 l).Perm l) :
    ∀ (budget : Nat) (q : List String) (st1 st2 : CrawlState),
      st1.seen_image_urls = st2.seen_image_urls →
      st1.visited = st2.visited →
      st1.total_pages = st2.total_pages →
      pageFetches st1.trace = pageFetches st2.trace →
      st1.rows.map rowKey = st2.rows.map rowKey →
      (pagesLoop w args allowed kws fcl enum1 budget q st1).seen_image_urls =
        (pagesLoop w args allowed kws fcl enum2 budget q st2).seen_image_urls ∧
      (pagesLoop w args allowed kws fcl enum1 budget q st1).visited =
        (pagesLoop w args allowed kws fcl enum2 budget q st2).visited ∧
      (pagesLoop w args allowed kws fcl enum1 budget q st1).total_pages =
        (pagesLoop w args allowed kws fcl enum2 budget q st2).total_pages ∧
      pageFetches (pagesLoop w args allowed kws fcl enum1 budget q st1).trace =
        pageFetches (pagesLoop w args allowed kws fcl enum2 budget q st2).trace ∧
      (pagesLoop w args allowed kws fcl enum1 budget q st1).rows.map rowKey =
        (pagesLoop w args allowed kws fcl enum2 budget q st2).rows.map rowKey := by
  intro budget
  induction budget with
  | zero =>
    intro q st1 st2 e1 e2 e3 e4 e5
    exact ⟨e1, e2, e3, e4, e5⟩
  | succ b ih =>
    intro q st1 st2 e1 e2 e3 e4 e5
    rw [pagesLoop, pagesLoop]
    rcases hp1 : popPhase w args allowed q st1 with ⟨res1, stA⟩
    rcases hp2 : popPhase w args allowed q st2 with ⟨res2, stB⟩
    have hrel := popPhase_rel w args allowed q st1 st2 e2 e4
    rw [hp1, hp2] at hrel
    obtain ⟨hres, hvis, htr⟩ := hrel
    have hfA := popPhase_fields w args allowed q st1
    rw [hp1] at hfA
    have hfB := popPhase_fields w args allowed q st2
    rw [hp2] at hfB
    dsimp only at hres hvis htr hfA hfB
    have eA1 : stA.seen_image_urls = stB.seen_image_urls := by
      rw [hfA.2.1, hfB.2.1]; exact e1
    have eA3 : stA.total_pages = stB.total_pages := by
      rw [hfA.2.2.2.2, hfB.2.2.2.2]; exact e3
    have eA5 : stA.rows.map rowKey = stB.rows.map rowKey := by
      rw [hfA.1, hfB.1]; exact e5
    subst hres
    cases res1 with
    | none => exact ⟨eA1, hvis, eA3, htr, eA5⟩
    | some pr =>
      obtain ⟨pu, resp, rest⟩ := pr
      dsimp only
      have hcand := extract_image_candidates_rel enum1 enum2 h1 h2
        (w.parseHtml resp.text) pu
      have hproc := processCandidates_rel w args pu
        (args.output ++ "/" ++ sanitize_name (host_of pu) ++ "/images") kws
        hcand { stA with total_pages := stA.total_pages + 1 }
        { stB with total_pages := stB.total_pages + 1 }
        eA1 hvis (by dsimp only; rw [eA3]) htr eA5
      obtain ⟨p1, p2, p3, p4, p5⟩ := hproc
      have hq : ((sortStrs (dedupFirst
          ((discover_links (w.parseHtml resp.text) pu fcl).1 ++
            (discover_links (w.parseHtml resp.text) pu fcl).2))).filter
          (fun link => ¬ (processCandidates w args pu
            (args.output ++ "/" ++ sanitize_name (host_of pu) ++ "/images") kws
            (extract_image_candidates enum1 (w.parseHtml resp.text) pu)
            { stA with total_pages := stA.total_pages + 1 }).visited.contains
              link &&
            (args.allow_cross_domain || allowed.contains (host_of link)))) =
        ((sortStrs (dedupFirst
          ((discover_links (w.parseHtml resp.text) pu fcl).1 ++
            (discover_links (w.parseHtml resp.text) pu fcl).2))).filter
          (fun link => ¬ (processCandidates w args pu
            (args.output ++ "/" ++ sanitize_name (host_of pu) ++ "/images") kws
            (extract_image_candidates enum2 (w.parseHtml resp.text) pu)
            { stB with total_pages := stB.total_pages + 1 }).visited.contains
              link &&
            (args.allow_cross_domain || allowed.contains (host_of link)))) := by
        rw [p2]
      rw [hq]
      exact ih _ _ _ p1 p2 p3 p4 p5


/-- C8 counterexample: the claim that the manifest is a deterministic
function of the page contents and configuration fails.  The identity and
reversal enumerations are both admissible iteration orders for the
`path_variants` set literal of `guess_fullsize_variants` (each returns a
permutation of its input, as CPython set iteration does under hash
randomization), yet on world `W2` the two runs produce different manifest
rows: the variant lists differ in order, so a different variant URL succeeds
first and the saved path, digest and extension of the row change. -/
theorem C8_manifest_counterexample :
    (∀ l : List String, (id l).Perm l) ∧
    (∀ l : List String, l.reverse.Perm l) ∧
    (crawl_and_download W2 args1 id).state.rows ≠
      (crawl_and_download W2 args1 (fun l => l.reverse)).state.rows :=
  ⟨fun l => List.Perm.refl l, fun l => List.reverse_perm l, by decide⟩

/-- C8 (amended): for any two runs of the crawl over the same world and the
same configuration, whose set-iteration orders are both admissible
(permutations), the runs agree on the exit code, the allowed-host list, the
visited list, the page count, the ordered list of page fetches, and on every
manifest row's page URL, chosen image URL and variant count, in order.  (The
saved path and content hash of a row can still differ between runs — see the
counterexample — so determinism holds only up to this projection.) -/
theorem C8_manifest_agreement (w : World) (args : Args)
    (enum1 enum2 : List String → List String)
    (h1 : ∀ l, (enum1 l).Perm l) (h2 : ∀ l, (enum2 l).Perm l) :
    (crawl_and_download w args enum1).exit_code =
      (crawl_and_download w args enum2).exit_code ∧
    (crawl_and_download w args enum1).allowed_hosts =
      (crawl_and_download w args enum2).allowed_hosts ∧
    (crawl_and_download w args enum1).state.visited =
      (crawl_and_download w args enum2).state.visited ∧
    (crawl_and_download w args enum1).state.total_pages =
      (crawl_and_download w args enum2).state.total_pages ∧
    pageFetches (crawl_and_download w args enum1).state.trace =
      pageFetches (crawl_and_download w args enum2).state.trace ∧
    (crawl_and_download w args enum1).state.rows.map rowKey =
      (crawl_and_download w args enum2).state.rows.map rowKey := by
  rw [crawl_and_download, crawl_and_download]
  by_cases hs : args.start_urls.filterMap (fun x => normalize_url x x) = []
  · rw [if_pos hs, if_pos hs]
    exact ⟨rfl, rfl, rfl, rfl, rfl, rfl⟩
  · rw [if_neg hs, if_neg hs]
    have hrel := pagesLoop_rel w args
      (dedupFirst
        ((args.start_urls.filterMap (fun x => normalize_url x x)).map host_of))
      (args.skip_url_keyword.filterMap (fun k =>
        if pyStrip k = "" then none else some (pyLower (pyStrip k))))
      (¬ args.no_follow_content_links) enum1 enum2 h1 h2
      args.max_pages (args.start_urls.filterMap (fun x => normalize_url x x))
      emptyState emptyState rfl rfl rfl rfl rfl
    exact ⟨rfl, rfl, hrel.2.1, hrel.2.2.1, hrel.2.2.2.1, hrel.2.2.2.2⟩

/-- C8 witness: the agreement theorem applied at world `W2` with the identity
and reversal enumerations. -/
theorem C8_manifest_agreement_witness :
    (∀ l : List String, (id l).Perm l) ∧
    (∀ l : List String, l.reverse.Perm l) ∧
    (crawl_and_download W2 args1 id).state.rows.map rowKey =
      (crawl_and_download W2 args1 (fun l => l.reverse)).state.rows.map rowKey :=
  ⟨fun l => List.Perm.refl l, fun l => List.reverse_perm l,
    (C8_manifest_agreement W2 args1 id (fun l => l.reverse)
      (fun l => List.Perm.refl l) (fun l => List.reverse_perm l)).2.2.2.2.2⟩

end VV

/-! ## Model validation
Concrete evaluations of the embedded functions, checked against the
behaviour of the Python originals (CPython 3) on the same inputs. -/
example : VV.urlparse "http://a.com/p?w=1&x=2#f" = ⟨"http", "a.com", "/p", "", "w=1&x=2", "f"⟩ := rfl
example : VV.urljoin "http://a.com/dir/page.html" "img/x.jpg" = "http://a.com/dir/img/x.jpg" := rfl
example : VV.urljoin "http://a.com/dir/page.html" "/img/x.jpg" = "http://a.com/img/x.jpg" := rfl
example : VV.urljoin "http://a.com/dir/" "../x.jpg" = "http://a.com/x.jpg" := rfl
example : VV.urljoin "http://a.com/p" "http://b.com/q" = "http://b.com/q" := rfl
example : VV.urljoin "http://a.com/p?q=1" "x" = "http://a.com/x" := rfl
example : VV.urljoin "http://a.com/" "http://a.com/" = "http://a.com/" := rfl
example : VV.urlunparse (VV.urlparse "http://a.com/p?w=1" "") = "http://a.com/p?w=1" := rfl
example : VV.parse_qsl "a=1&w=2&b" = [("a", "1"), ("w", "2"), ("b", "")] := rfl
example : VV.unquote "a%20b%2Gc" = "a b%2Gc" := rfl
example : VV.urlparse "HTTP://A.com/x" "" = ⟨"http", "A.com", "/x", "", "", ""⟩ := rfl
example : VV.urljoin "http://a.com/p" "//b.com/z" = "http://b.com/z" := rfl
example : VV.strip_thumbnail_query_params "http://a.com/p?w=100&x=2" = "http://a.com/p?x=2" := rfl
example : VV.strip_thumbnail_query_params "http://a.com/p?w=1" = "http://a.com/p" := rfl
example : VV.strip_thumbnail_query_params "http://a.com/p?a=b+c&w=1" = "http://a.com/p?a=b c" := rfl
example : VV.strip_thumbnail_query_params "http://a.com/p?a=&b" = "http://a.com/p?a&b" := rfl
example : VV.strip_thumbnail_query_params "http://a.com/p" = "http://a.com/p" := rfl
example : VV.guess_fullsize_variants id "http://a.com/thumb/x-small.jpg" =
    ["http://a.com/thumb/x-small.jpg", "http://a.com/x-small.jpg", "http://a.com/thumb/x.jpg"] := rfl
example : VV.guess_fullsize_variants id "http://a.com/i/a_thumb_small.jpg" =
    ["http://a.com/i/a_thumb_small.jpg", "http://a.com/i/a_thumb.jpg"] := rfl
example : String.mk (VV.thumbSub2Go 17 none "/small_small_x.jpg".data) = "/small_x.jpg" := by decide
example : String.mk (VV.thumbSub1Go 14 "/x-TN-sm_y.png".data) = "/x-sm_y.png" := by decide
example : VV.pyInt "1_0" = some 10 := rfl
example : VV.pyInt "-5" = some (-5) := rfl
example : VV.pyInt "1.5" = none := rfl
example : VV.pyFloatTimes1000Int "8.2" = some 8200 := rfl
example : VV.pyFloatTimes1000Int "1.5" = some 1500 := rfl
example : VV.pyFloatTimes1000Int "0.001" = some 1 := rfl
example : VV.pyFloatTimes1000Int "0.0007" = some 0 := rfl
example : VV.pyFloatTimes1000Int "123.456" = some 123456 := rfl
example : VV.pyFloatTimes1000Int "1e-3" = some 1 := rfl
example : VV.parse_srcset_best "a.jpg 100w, b.jpg 400w, c.jpg 1x" "http://e.com/" = some "http://e.com/c.jpg" := rfl
example : VV.parse_srcset_best "a.jpg 1x, b.jpg 2x" "http://e.com/" = some "http://e.com/b.jpg" := rfl
example : VV.parse_srcset_best "a.jpg -1w" "http://e.com/" = none := rfl
example : VV.sanitize_name "Hello World!.jpg" = "hello_world_.jpg" := rfl
example : VV.sanitize_name "..x.." = "x" := rfl
example : VV.sanitize_name "###" = "image" := rfl
example : VV.normalize_url "  /img/x.jpg  " "http://a.com/p/q" = some "http://a.com/img/x.jpg" := rfl
example : VV.normalize_url "javascript:void(0)" "http://a.com/" = none := rfl
example : VV.normalize_url "http://a.com/x#frag" "http://a.com/" = some "http://a.com/x" := rfl
example : VV.host_of "http://A.com:8080/x" = "a.com:8080" := rfl
example : VV.looks_like_image_url "http://a.com/x.JPG?q=1" = true := rfl
example : VV.looks_like_image_url "http://a.com/x.html" = false := rfl
